import Mathlib

/-!
Verification development for the ExeCap repository: a shallow embedding of
the company-folder CSV loader (`company_folder_loader.py`) and the in-memory
entity model (`models.py`), together with theorems settling the frozen
claims about the natural-language specification.

Conventions of the embedding:
* Python floats are modelled as rationals; IEEE specials (inf and nan) are
  outside the model and no claim depends on them.
* Python `None`-able strings are `Option String`; a CSV row is an
  association list from header to `Option String` so that an absent key and
  a key present with `None` stay distinguishable (both arise in the source).
* Mutation is explicit state passing; fallible operations return `Except`.
-/

/-! ## Python string primitives -/

/-- Characters stripped by Python `str.strip()` (ASCII whitespace). -/
def isPySpace (c : Char) : Bool :=
  c = ' ' || c = '\t' || c = '\n' || c = '\r' || c = '\x0b' || c = '\x0c'

/-- Python `str.strip()`. -/
def pyStrip (s : String) : String :=
  ⟨((s.data.dropWhile isPySpace).reverse.dropWhile isPySpace).reverse⟩

/-- Python truthiness of an optional string: `None` and `""` are falsy. -/
def strTruthy : Option String → Bool
  | none => false
  | some s => s ≠ ""

/-- Python `str.lower()` on the ASCII data this pipeline carries. -/
def pyLower (s : String) : String :=
  ⟨s.data.map Char.toLower⟩

/-- Remove every occurrence of the given characters, as chained
`str.replace(c, "")` calls do. -/
def removeChars (cs : List Char) (s : String) : String :=
  ⟨s.data.filter (fun c => !cs.contains c)⟩

/-- Python `"sep".join`-style split: `str.split(sep)` for a one-character
separator (used on `/` in blob paths). -/
def splitOnChar (sep : Char) : List Char → List (List Char)
  | [] => [[]]
  | c :: rest =>
    let r := splitOnChar sep rest
    if c = sep then [] :: r
    else
      match r with
      | h :: t => (c :: h) :: t
      | [] => [[c]]

/-- Python `str.split("/")` returning strings. -/
def pySplitSlash (s : String) : List String :=
  (splitOnChar '/' s.data).map (fun cs => ⟨cs⟩)

/-- Python `str.endswith(sfx)`. -/
def strEndsWith (s sfx : String) : Bool :=
  sfx.data.isSuffixOf s.data

/-- Substring containment, Python `needle in haystack`. -/
def listContainsSub (needle : List Char) : List Char → Bool
  | [] => needle.isEmpty
  | c :: t => needle.isPrefixOf (c :: t) || listContainsSub needle t

/-- Python `needle in haystack` on strings. -/
def strContains (haystack needle : String) : Bool :=
  listContainsSub needle.data haystack.data

/-- Python `str.isdigit()` for ASCII data: nonempty and all digits. -/
def pyIsDigit (s : String) : Bool :=
  !s.data.isEmpty && s.data.all Char.isDigit

/-- Value of a decimal digit list, most significant first. -/
def digitsVal (cs : List Char) : Nat :=
  cs.foldl (fun acc c => 10 * acc + (c.toNat - '0'.toNat)) 0

/-- Split a character list into its leading run of decimal digits and the rest. -/
def takeDigits (cs : List Char) : List Char × List Char :=
  (cs.takeWhile Char.isDigit, cs.dropWhile Char.isDigit)

/-! ## Python float literal parsing

Model of CPython `float(text)` on ordinary decimal literals:
optional sign, digits with an optional decimal point, optional exponent.
Digit-group underscores and the special literals inf/infinity/nan are outside
the model; no pipeline input or claim exercises them. -/

/-- The syntactic shape of an accepted float literal: sign, integer digits,
fraction digits, exponent sign and digits. -/
structure FloatLit where
  neg : Bool
  intDigits : List Char
  fracDigits : List Char
  expNeg : Bool
  expDigits : List Char
deriving DecidableEq

/-- The rational value of a parsed float literal. -/
def floatLitVal (f : FloatLit) : ℚ :=
  let mantissa : ℚ :=
    (digitsVal f.intDigits : ℚ) + (digitsVal f.fracDigits : ℚ) / (10 : ℚ) ^ f.fracDigits.length
  let mantissa := if f.neg then -mantissa else mantissa
  let ex : ℚ := (10 : ℚ) ^ digitsVal f.expDigits
  if f.expNeg then mantissa / ex else mantissa * ex

/-- The syntactic phase of CPython `float(text)`: strip, optional sign,
digits with an optional decimal point (at least one digit overall), optional
exponent, nothing left over. -/
def pyFloatLit (s : String) : Option FloatLit :=
  let cs := (pyStrip s).data
  let (neg, cs) :=
    match cs with
    | '+' :: r => (false, r)
    | '-' :: r => (true, r)
    | r => (false, r)
  let (intDigits, rest) := takeDigits cs
  let (fracDigits, rest) :=
    match rest with
    | '.' :: r => takeDigits r
    | r => ([], r)
  if intDigits.isEmpty && fracDigits.isEmpty then none
  else
    match rest with
    | [] => some ⟨neg, intDigits, fracDigits, false, []⟩
    | e :: rest1 =>
      if e = 'e' || e = 'E' then
        let (expNeg, rest2) :=
          match rest1 with
          | '+' :: r => (false, r)
          | '-' :: r => (true, r)
          | r => (false, r)
        let (expDigits, rest3) := takeDigits rest2
        if expDigits.isEmpty || !rest3.isEmpty then none
        else some ⟨neg, intDigits, fracDigits, expNeg, expDigits⟩
      else none

/-- Model of CPython `float(text)` for finite decimal literals.
Returns `none` where CPython raises `ValueError`. -/
def pyFloatParse (s : String) : Option ℚ :=
  (pyFloatLit s).map floatLitVal

/-! ## Calendar dates -/

/-- A calendar date as Python `datetime.date` stores it. -/
structure Date where
  year : Nat
  month : Nat
  day : Nat
deriving DecidableEq, Repr

/-- Gregorian leap-year test, as in the `datetime` module. -/
def isLeapYear (y : Nat) : Bool :=
  y % 4 = 0 && (y % 100 ≠ 0 || y % 400 = 0)

/-- Days in a month of a given year. -/
def daysInMonth (y m : Nat) : Nat :=
  if m = 2 then (if isLeapYear y then 29 else 28)
  else if m = 4 || m = 6 || m = 9 || m = 11 then 30
  else 31

/-- Validating date constructor: `some` exactly when Python `date(y, m, d)`
succeeds (year within MINYEAR..MAXYEAR, month and day in range). -/
def mkDate (y m d : Nat) : Option Date :=
  if 1 ≤ y && y ≤ 9999 && 1 ≤ m && m ≤ 12 && 1 ≤ d && d ≤ daysInMonth y m then
    some ⟨y, m, d⟩
  else none

/-- Model of `datetime.date.fromisoformat` on the forms this pipeline can
meet: the dashed `YYYY-MM-DD` form and the compact `YYYYMMDD` form.
A string carrying a time component is rejected, as CPython does
(`date.fromisoformat("2024-01-31T00:00:00")` raises `ValueError`). -/
def date_fromisoformat (s : String) : Option Date :=
  match s.data with
  | [y1, y2, y3, y4, '-', m1, m2, '-', d1, d2] =>
    if [y1, y2, y3, y4, m1, m2, d1, d2].all Char.isDigit then
      mkDate (digitsVal [y1, y2, y3, y4]) (digitsVal [m1, m2]) (digitsVal [d1, d2])
    else none
  | [y1, y2, y3, y4, m1, m2, d1, d2] =>
    if [y1, y2, y3, y4, m1, m2, d1, d2].all Char.isDigit then
      mkDate (digitsVal [y1, y2, y3, y4]) (digitsVal [m1, m2]) (digitsVal [d1, d2])
    else none
  | _ => none

/-- Model of `datetime.strptime(text, "%Y-%m-%d").date()`: exactly four year
digits, one or two month and day digits (zero padding optional), the whole
string consumed, and the resulting date valid. -/
def strptime_Ymd (s : String) : Option Date :=
  let (yd, r1) := takeDigits s.data
  if yd.length ≠ 4 then none
  else match r1 with
  | '-' :: r2 =>
    let (md, r3) := takeDigits r2
    if md.isEmpty || md.length > 2 then none
    else match r3 with
    | '-' :: r4 =>
      let (dd, r5) := takeDigits r4
      if dd.isEmpty || dd.length > 2 || !r5.isEmpty then none
      else mkDate (digitsVal yd) (digitsVal md) (digitsVal dd)
    | _ => none
  | _ => none

/-- Model of `datetime.strptime(text, "%m/%d/%Y").date()`. -/
def strptime_mdY (s : String) : Option Date :=
  let (md, r1) := takeDigits s.data
  if md.isEmpty || md.length > 2 then none
  else match r1 with
  | '/' :: r2 =>
    let (dd, r3) := takeDigits r2
    if dd.isEmpty || dd.length > 2 then none
    else match r3 with
    | '/' :: r4 =>
      let (yd, r5) := takeDigits r4
      if yd.length ≠ 4 || !r5.isEmpty then none
      else mkDate (digitsVal yd) (digitsVal md) (digitsVal dd)
    | _ => none
  | _ => none

/-! ## Loader field coercion (`company_folder_loader.py` helpers) -/

/-- A raw cell value as the coercion helpers receive it: Python `None`,
a bool, an already-typed number, or a string. -/
inductive PyVal where
  | vNone : PyVal
  | vBool : Bool → PyVal
  | vNum : ℚ → PyVal
  | vStr : String → PyVal
deriving DecidableEq

/-- Lift an optional row value (string or `None`) into a cell value. -/
def PyVal.ofOpt : Option String → PyVal
  | none => PyVal.vNone
  | some s => PyVal.vStr s

/-- The empty markers recognized case-insensitively by `_to_float`/`_to_int`. -/
def naMarkers : List String := ["na", "n/a", "none"]

/-- `_to_float`: tolerant numeric coercion; never raises.  Python `bool` is an
`int` subtype, so it takes the numeric branch. -/
def _to_float : PyVal → ℚ
  | PyVal.vNone => 0
  | PyVal.vBool b => if b then 1 else 0
  | PyVal.vNum q => q
  | PyVal.vStr s =>
    let text := pyStrip s
    if text = "" || pyLower text ∈ naMarkers then 0
    else
      let text := removeChars [',', '$'] text
      (pyFloatParse text).getD 0

/-- Truncation toward zero, as Python `int(float_value)`. -/
def ratTrunc (q : ℚ) : Int :=
  if 0 ≤ q then ⌊q⌋ else ⌈q⌉

/-- `_to_int`: tolerant integer coercion via `int(float(text))`. -/
def _to_int : PyVal → Int
  | PyVal.vNone => 0
  | PyVal.vBool b => if b then 1 else 0
  | PyVal.vNum q => ratTrunc q
  | PyVal.vStr s =>
    let text := pyStrip s
    if text = "" || pyLower text ∈ naMarkers then 0
    else
      let text := removeChars [','] text
      ((pyFloatParse text).map ratTrunc).getD 0

/-- The strings `_to_bool` accepts as true. -/
def trueMarkers : List String := ["true", "t", "yes", "y", "1"]

/-- `_to_bool`: case-insensitive boolean coercion; numeric inputs never reach
it in this pipeline. -/
def _to_bool : PyVal → Bool
  | PyVal.vNone => false
  | PyVal.vBool b => b
  | PyVal.vNum _ => false
  | PyVal.vStr s => pyLower (pyStrip s) ∈ trueMarkers

/-- `_parse_date`: ISO first, then `%Y-%m-%d`, then `%m/%d/%Y`, else the
caller-supplied fallback; empty or missing input also yields the fallback. -/
def _parse_date (value : Option String) (fallback : Option Date) : Option Date :=
  if !strTruthy value then fallback
  else
    let text := pyStrip (value.getD "")
    ((date_fromisoformat text).orElse fun _ =>
      (strptime_Ymd text).orElse fun _ =>
        strptime_mdY text).orElse fun _ => fallback

/-- `_slugify`: lowercase, collapse runs of non-alphanumerics to `_`, trim. -/
def _slugify (value : String) : String :=
  let lowered := (pyLower value).data
  let mapped := lowered.map (fun c => if c.isAlpha || c.isDigit then c else '_')
  let rec collapse : List Char → List Char
    | [] => []
    | '_' :: rest =>
      match collapse rest with
      | '_' :: tail => '_' :: tail
      | tail => '_' :: tail
    | c :: rest => c :: collapse rest
  let collapsed := collapse mapped
  let trimmed := ((collapsed.dropWhile (· = '_')).reverse.dropWhile (· = '_')).reverse
  if trimmed.isEmpty then "unknown" else ⟨trimmed⟩

/-! ## The in-memory model (`src/models.py`) -/

namespace Models

/-- `Role`: a position held by a person at a company (`models.py`). -/
structure Role where
  person_id : Int
  company_id : Int
  title : String
  position_type : String
  year : Int
  contract_years : Int
  base_salary : ℚ
  bonus : ℚ := 0
  stock_awards : ℚ := 0
  signing_bonus : ℚ := 0
  share_count : Option ℚ := none
deriving DecidableEq

/-- `Role.total_compensation`. -/
def Role.total_compensation (r : Role) : ℚ :=
  r.base_salary + r.bonus + r.stock_awards + r.signing_bonus

/-- `Person` (`models.py`): an executive or board member. -/
structure Person where
  person_id : Int
  name : String
  age : Int := 45
  experience : Int := 10
  education : String := "MBA"
  status : String := "Active"
  previous_companies : List String := []
  roles : List Role := []
  current_role : Option Role := none
deriving DecidableEq

/-- `Person.is_free_agent`: an exact comparison with the string `"Retired"`. -/
def Person.is_free_agent (p : Person) : Bool :=
  p.status = "Retired"

/-- `Company` (`models.py`).  The executive/board lists and the person lookup
cache are carried explicitly; Python's `person not in list` membership test is
rendered by person identifier, the observable key. -/
structure Company where
  company_id : Int
  name : String
  ticker : String := "UNK"
  sector : String := "Technology"
  market_cap : ℚ := 0
  revenue : ℚ := 0
  exec_budget : ℚ := 50000000
  founded : Int := 2000
  executives : List Person := []
  board_members : List Person := []
  all_roles : List Role := []
  person_lookup : List (Int × Person) := []

/-- `Company.get_person_by_id` via the `_person_lookup` cache. -/
def Company.get_person_by_id (c : Company) (pid : Int) : Option Person :=
  (c.person_lookup.find? (fun e => e.1 = pid)).map (·.2)

/-- Python dict assignment `d[k] = v`: replace in place, else append. -/
def dictSet {β : Type} (d : List (Int × β)) (k : Int) (v : β) : List (Int × β) :=
  if d.any (fun e => e.1 = k) then
    d.map (fun e => if e.1 = k then (k, v) else e)
  else d ++ [(k, v)]

/-- `Company.add_person`: append the role, file the person under the matching
position-type list when absent, and cache the person by id. -/
def Company.add_person (c : Company) (p : Person) (r : Role) : Company :=
  let c := { c with all_roles := c.all_roles ++ [r] }
  let c :=
    if r.position_type = "C-Suite" then
      if c.executives.any (fun q => q.person_id = p.person_id) then c
      else { c with executives := c.executives ++ [p] }
    else if r.position_type = "Board" then
      if c.board_members.any (fun q => q.person_id = p.person_id) then c
      else { c with board_members := c.board_members ++ [p] }
    else c
  { c with person_lookup := dictSet c.person_lookup p.person_id p }

/-- `Company.total_compensation_spending`. -/
def Company.total_compensation_spending (c : Company) : ℚ :=
  (c.all_roles.map Role.total_compensation).sum

/-- `Company.cap_space_remaining`. -/
def Company.cap_space_remaining (c : Company) : ℚ :=
  c.exec_budget - c.total_compensation_spending

/-- `Company.cap_utilization_percentage`: guarded to `0` on a zero budget. -/
def Company.cap_utilization_percentage (c : Company) : ℚ :=
  if c.exec_budget = 0 then 0
  else c.total_compensation_spending / c.exec_budget * 100

/-- `Company.is_over_budget`. -/
def Company.is_over_budget (c : Company) : Bool :=
  c.total_compensation_spending > c.exec_budget

/-- The dictionary returned by `Company.get_cap_info`. -/
structure CapInfo where
  total_spent : ℚ
  budget : ℚ
  remaining : ℚ
  utilization_pct : ℚ
  is_over_budget : Bool
  executive_count : Nat
  board_count : Nat
deriving DecidableEq

/-- `Company.get_cap_info`. -/
def Company.get_cap_info (c : Company) : CapInfo where
  total_spent := c.total_compensation_spending
  budget := c.exec_budget
  remaining := c.cap_space_remaining
  utilization_pct := c.cap_utilization_percentage
  is_over_budget := c.is_over_budget
  executive_count := c.executives.length
  board_count := c.board_members.length

/-- One entry of `Company.get_executives_by_position_type`: the person, the
role and the cap-hit percentage computed by an unguarded division. -/
structure PositionEntry where
  person : Person
  role : Role
  cap_hit_pct : ℚ
deriving DecidableEq

/-- The row-collection loop of `Company.get_executives_by_position_type`.
The Python expression `(role.total_compensation / self.exec_budget) * 100`
raises `ZeroDivisionError` when `exec_budget == 0`, modelled as `Except`. -/
def collectPositionEntries (c : Company) (position_type : String) :
    List Role → Except Unit (List PositionEntry)
  | [] => Except.ok []
  | r :: rest =>
    if r.position_type = position_type then
      match c.get_person_by_id r.person_id with
      | some p =>
        if c.exec_budget = 0 then Except.error ()
        else
          match collectPositionEntries c position_type rest with
          | Except.error e => Except.error e
          | Except.ok tail =>
            Except.ok ({ person := p, role := r,
                         cap_hit_pct := r.total_compensation / c.exec_budget * 100 } :: tail)
      | none => collectPositionEntries c position_type rest
    else collectPositionEntries c position_type rest

/-- `Company.get_executives_by_position_type`: collect matching roles with
their cap-hit percentage, then sort by total compensation descending. -/
def Company.get_executives_by_position_type (c : Company) (position_type : String) :
    Except Unit (List PositionEntry) :=
  match collectPositionEntries c position_type c.all_roles with
  | Except.error e => Except.error e
  | Except.ok result =>
    Except.ok (result.mergeSort (fun a b => b.role.total_compensation ≤ a.role.total_compensation))

/-- `LeagueManager` (`models.py`): companies and people keyed by id. -/
structure LeagueManager where
  companies : List (Int × Company) := []
  people : List (Int × Person) := []
  all_roles : List Role := []

/-- `LeagueManager.get_free_agents`: the people whose status is the exact
string `"Retired"`, in insertion order. -/
def LeagueManager.get_free_agents (lm : LeagueManager) : List Person :=
  (lm.people.map (·.2)).filter Person.is_free_agent

end Models


/-! ## Claims about `models.py` (C1, C7, C10) -/

/-- A company with a zero declared budget and one compensated role. -/
def zeroBudgetRole : Models.Role :=
  { person_id := 1, company_id := 1, title := "CEO", position_type := "C-Suite",
    year := 2024, contract_years := 1, base_salary := 100 }

/-- The person holding `zeroBudgetRole`. -/
def zeroBudgetPerson : Models.Person :=
  { person_id := 1, name := "Jane Doe" }

/-- Concrete company: declared executive budget `0`, spend `100`. -/
def zeroBudgetCompany : Models.Company :=
  { company_id := 1, name := "Acme", exec_budget := 0,
    all_roles := [zeroBudgetRole],
    person_lookup := [(1, zeroBudgetPerson)] }

/-- C1 counterexample: for the company with declared budget `0` and spend
`100`, `get_cap_info` reports `utilization_pct = 0` (not `100`) and
`remaining = -100` (not `0`), refuting the claimed snapshot values. -/
theorem get_cap_info_zero_budget_counterexample :
    zeroBudgetCompany.exec_budget = 0 ∧
    (Models.Company.get_cap_info zeroBudgetCompany).total_spent ≠ 0 ∧
    ¬ ((Models.Company.get_cap_info zeroBudgetCompany).utilization_pct = 100 ∧
       (Models.Company.get_cap_info zeroBudgetCompany).remaining = 0) := by
  refine ⟨rfl, ?_, ?_⟩
  · show Models.Company.total_compensation_spending zeroBudgetCompany ≠ 0
    simp [Models.Company.total_compensation_spending, zeroBudgetCompany,
      Models.Role.total_compensation, zeroBudgetRole]
  · rintro ⟨h100, -⟩
    have h0 : (Models.Company.get_cap_info zeroBudgetCompany).utilization_pct = 0 := by
      show Models.Company.cap_utilization_percentage zeroBudgetCompany = 0
      simp [Models.Company.cap_utilization_percentage, zeroBudgetCompany]
    rw [h0] at h100
    norm_num at h100

/-- C1 amended: for every company whose declared executive budget is zero,
`get_cap_info` raises no division error and reports `utilization_pct = 0`
(the zero-budget guard) and `remaining` equal to the negated total spend. -/
theorem get_cap_info_zero_budget (c : Models.Company) (h : c.exec_budget = 0) :
    (Models.Company.get_cap_info c).utilization_pct = 0 ∧
    (Models.Company.get_cap_info c).remaining = - c.total_compensation_spending := by
  unfold Models.Company.get_cap_info Models.Company.cap_utilization_percentage
    Models.Company.cap_space_remaining
  simp [h]

/-- Witness for `get_cap_info_zero_budget` at the concrete zero-budget company. -/
theorem get_cap_info_zero_budget_witness :
    zeroBudgetCompany.exec_budget = 0 ∧
    ((Models.Company.get_cap_info zeroBudgetCompany).utilization_pct = 0 ∧
     (Models.Company.get_cap_info zeroBudgetCompany).remaining =
       - zeroBudgetCompany.total_compensation_spending) :=
  ⟨rfl, get_cap_info_zero_budget zeroBudgetCompany rfl⟩

/-- A person whose status normalizes to `"retired"` but is not the exact
string `"Retired"`. -/
def lowercaseRetiredPerson : Models.Person :=
  { person_id := 7, name := "Jay Roe", status := "retired" }

/-- A league holding only `lowercaseRetiredPerson`. -/
def lowercaseRetiredLeague : Models.LeagueManager :=
  { people := [(7, lowercaseRetiredPerson)] }

/-- C7 counterexample: a person whose status normalizes case-insensitively to
`"retired"` is absent from `get_free_agents`, because the code compares with
the exact string `"Retired"`. -/
theorem get_free_agents_counterexample :
    pyLower lowercaseRetiredPerson.status = "retired" ∧
    lowercaseRetiredPerson ∈ lowercaseRetiredLeague.people.map (·.2) ∧
    lowercaseRetiredPerson ∉ Models.LeagueManager.get_free_agents lowercaseRetiredLeague := by
  refine ⟨by decide, by decide, by decide⟩

/-- C7 amended: `get_free_agents` returns exactly the stored people whose
status equals the exact string `"Retired"` (case-sensitive, with no
executive/director flag in this model); in particular a person with status
`"Active"` never appears. -/
theorem get_free_agents_exact (lm : Models.LeagueManager) (p : Models.Person) :
    p ∈ Models.LeagueManager.get_free_agents lm ↔
      p ∈ lm.people.map (·.2) ∧ p.status = "Retired" := by
  unfold Models.LeagueManager.get_free_agents
  simp [List.mem_filter, Models.Person.is_free_agent]

/-- The error case of `collectPositionEntries`: with every role's person
resolvable and a zero budget, any matching role forces the division error. -/
theorem collectPositionEntries_error (c : Models.Company) (pt : String)
    (hwf : ∀ r ∈ c.all_roles, (c.get_person_by_id r.person_id).isSome)
    (hb : c.exec_budget = 0) :
    ∀ roles, (∀ r ∈ roles, r ∈ c.all_roles) → (∃ r ∈ roles, r.position_type = pt) →
      Models.collectPositionEntries c pt roles = Except.error () := by
  intro roles
  induction roles with
  | nil =>
    rintro _ ⟨r, hr, -⟩
    cases hr
  | cons r rest ih =>
    rintro hsub hex
    have hsubr : ∀ x ∈ rest, x ∈ c.all_roles :=
      fun x hx => hsub x (List.mem_cons_of_mem r hx)
    by_cases hmatch : r.position_type = pt
    · have hsome := hwf r (hsub r (List.mem_cons_self r rest))
      obtain ⟨p, hp⟩ := Option.isSome_iff_exists.mp hsome
      simp only [Models.collectPositionEntries, if_pos hmatch, hp, if_pos hb]
    · have hex' : ∃ x ∈ rest, x.position_type = pt := by
        obtain ⟨x, hx, hxpt⟩ := hex
        rcases List.mem_cons.mp hx with heq | htl
        · exact absurd (heq ▸ hxpt) hmatch
        · exact ⟨x, htl, hxpt⟩
      simp only [Models.collectPositionEntries, if_neg hmatch]
      exact ih hsubr hex'

/-- The success case of `collectPositionEntries`: with a nonzero budget the
loop never raises. -/
theorem collectPositionEntries_ok (c : Models.Company) (pt : String)
    (hb : c.exec_budget ≠ 0) :
    ∀ roles, ∃ l, Models.collectPositionEntries c pt roles = Except.ok l := by
  intro roles
  induction roles with
  | nil => exact ⟨[], rfl⟩
  | cons r rest ih =>
    obtain ⟨l, hl⟩ := ih
    by_cases hmatch : r.position_type = pt
    · cases hp : c.get_person_by_id r.person_id with
      | none =>
        refine ⟨l, ?_⟩
        simp only [Models.collectPositionEntries, if_pos hmatch, hp, hl]
      | some p =>
        refine ⟨{ person := p, role := r,
                  cap_hit_pct := r.total_compensation / c.exec_budget * 100 } :: l, ?_⟩
        simp only [Models.collectPositionEntries, if_pos hmatch, hp, if_neg hb, hl]
    · refine ⟨l, ?_⟩
      simp only [Models.collectPositionEntries, if_neg hmatch, hl]

/-- C10: when every role's person resolves through the lookup cache,
`get_executives_by_position_type` raises `ZeroDivisionError` exactly as the
unguarded `cap_hit_pct` division predicts: a zero `exec_budget` together
with any role of the requested position type raises, and a nonzero budget
always returns normally. -/
theorem get_executives_by_position_type_div_by_zero (c : Models.Company) (pt : String)
    (hwf : ∀ r ∈ c.all_roles, (c.get_person_by_id r.person_id).isSome) :
    (c.exec_budget = 0 → (∃ r ∈ c.all_roles, r.position_type = pt) →
      Models.Company.get_executives_by_position_type c pt = Except.error ()) ∧
    (c.exec_budget ≠ 0 →
      ∃ l, Models.Company.get_executives_by_position_type c pt = Except.ok l) := by
  constructor
  · intro hb hex
    unfold Models.Company.get_executives_by_position_type
    rw [collectPositionEntries_error c pt hwf hb c.all_roles (fun _ h => h) hex]
  · intro hb
    obtain ⟨l, hl⟩ := collectPositionEntries_ok c pt hb c.all_roles
    unfold Models.Company.get_executives_by_position_type
    rw [hl]
    exact ⟨_, rfl⟩

/-- Witness for `get_executives_by_position_type_div_by_zero`: the concrete
zero-budget company raises on its C-Suite role. -/
theorem get_executives_by_position_type_div_by_zero_witness :
    (∀ r ∈ zeroBudgetCompany.all_roles,
      (zeroBudgetCompany.get_person_by_id r.person_id).isSome) ∧
    Models.Company.get_executives_by_position_type zeroBudgetCompany "C-Suite" =
      Except.error () := by
  have hwf : ∀ r ∈ zeroBudgetCompany.all_roles,
      (zeroBudgetCompany.get_person_by_id r.person_id).isSome := by decide
  refine ⟨hwf, ?_⟩
  exact (get_executives_by_position_type_div_by_zero zeroBudgetCompany "C-Suite" hwf).1
    rfl ⟨zeroBudgetRole, by decide, rfl⟩

/-! ## CSV rows -/

/-- A CSV row after `_read_csv_blob`'s strip pass: header to value.  A value
of `none` is Python `None` (the `DictReader` filler for short rows, or an
injected `setdefault`), kept distinct from a key that is absent. -/
structure Row where
  entries : List (String × Option String)
deriving DecidableEq

/-- Python `key in row`. -/
def Row.hasKey (row : Row) (k : String) : Bool :=
  row.entries.any (fun e => e.1 = k)

/-- Lookup distinguishing an absent key (`none`) from a present `None`
value (`some none`). -/
def Row.lookup (row : Row) (k : String) : Option (Option String) :=
  (row.entries.find? (fun e => e.1 = k)).map (·.2)

/-- Python `row.get(k)`: `None` both when the key is absent and when it is
present with value `None`. -/
def Row.get (row : Row) (k : String) : Option String :=
  (row.lookup k).join

/-- Python `row.get(k, default)`: the stored value when the key is present
(possibly `None`), otherwise the default. -/
def Row.getD (row : Row) (k : String) (d : Option String) : Option String :=
  match row.lookup k with
  | some v => v
  | none => d

/-- Python `dict.setdefault(k, v)`. -/
def Row.setdefault (row : Row) (k : String) (v : Option String) : Row :=
  if row.hasKey k then row else ⟨row.entries ++ [(k, v)]⟩

/-- `_get_first`: first key present with a value outside `(None, "")`. -/
def _get_first (row : Row) (keys : List String) (default : Option String) : Option String :=
  match keys with
  | [] => default
  | k :: rest =>
    match row.lookup k with
    | some v => if strTruthy v then v else _get_first row rest default
    | none => _get_first row rest default

/-- `_get_float`: `_to_float` of the first present non-empty key. -/
def _get_float (row : Row) (keys : List String) (default : ℚ) : ℚ :=
  match keys with
  | [] => default
  | k :: rest =>
    match row.lookup k with
    | some v => if strTruthy v then _to_float (PyVal.ofOpt v) else _get_float row rest default
    | none => _get_float row rest default

/-- `_get_int`: `_to_int` of the first present non-empty key; the default is
optional because `director_since` passes `default=None`. -/
def _get_int (row : Row) (keys : List String) (default : Option Int) : Option Int :=
  match keys with
  | [] => default
  | k :: rest =>
    match row.lookup k with
    | some v => if strTruthy v then some (_to_int (PyVal.ofOpt v)) else _get_int row rest default
    | none => _get_int row rest default

/-! ## Loader-side entities and the repository

`company_folder_loader.py` imports its entity and repository classes from a
models module that is not under `src/`; the entity records below are
transcribed from the loader's constructor calls and the spec's data model
(section 3), and each repository add method marked "Modelled from the spec"
carries the upsert/append semantics the spec assigns it. -/

namespace Loader

/-- Python truthiness of an optional integer: `None` and `0` are falsy. -/
def intTruthy : Option Int → Bool
  | none => false
  | some n => n ≠ 0

/-- Python `x or y` on floats: `0.0` is falsy. -/
def pyOrQ (x y : ℚ) : ℚ := if x = 0 then y else x

/-- Python `x or y` on ints: `0` is falsy. -/
def pyOrInt (x y : Int) : Int := if x = 0 then y else x

/-- Python `a or b or ""` on optional strings. -/
def orStr (a b : Option String) : String :=
  if strTruthy a then a.getD "" else if strTruthy b then b.getD "" else ""

/-- `Person` as the loader constructs it (spec section 3). -/
structure Person where
  person_id : String
  full_name : String
  current_title : String := ""
  is_executive : Bool := false
  is_director : Bool := false
  bio_short : Option String := none
  linkedin_url : Option String := none
  photo_url : Option String := none
  years_experience : Option Int := none
  education : Option String := none
  status : Option String := none
deriving DecidableEq

/-- `Company` as the loader constructs it (spec section 3).  String fields
are optional because a manifest `setdefault` can inject `None`. -/
structure Company where
  company_id : String
  company_name : Option String := none
  ticker : Option String := none
  fiscal_year_end : Date
  source_url : Option String := none
  notes : Option String := none
  market_cap_usd : ℚ := 0
  revenue_usd : ℚ := 0
  cap_budget_usd : ℚ := 0
  sector : Option String := none
  founded_year : Int := 0
deriving DecidableEq

/-- One executive-compensation row (natural key: company, person, year-end). -/
structure ExecutiveCompensation where
  company_id : String
  person_id : String
  fiscal_year_end : Date
  salary_usd : ℚ
  bonus_usd : ℚ
  stock_awards_usd : ℚ
  option_awards_usd : ℚ
  non_equity_incentive_usd : ℚ
  pension_change_usd : ℚ
  all_other_comp_usd : ℚ
  total_comp_usd : ℚ
  source : Option String
deriving DecidableEq

/-- One director-compensation row (same natural key as executive pay). -/
structure DirectorCompensation where
  company_id : String
  person_id : String
  fiscal_year_end : Date
  fees_cash_usd : ℚ
  stock_awards_usd : ℚ
  all_other_comp_usd : ℚ
  total_usd : ℚ
  source : Option String
deriving DecidableEq

/-- One equity grant; grants accumulate (no upsert key). -/
structure ExecutiveEquityGrant where
  company_id : String
  person_id : String
  grant_date : Date
  award_type : Option String
  threshold_units : Option Int
  target_units : Option Int
  max_units : Option Int
  grant_date_fair_value_usd : ℚ
  vesting_schedule_short : Option String
  source : Option String
deriving DecidableEq

/-- One beneficial-ownership row; accumulates. -/
structure BeneficialOwnershipRecord where
  company_id : String
  person_id : String
  role : Option String
  total_shares : Option Int
  sole_voting_power : Option Int
  shared_voting_power : Option Int
  percent_of_class : ℚ
  as_of_date : Date
  notes : Option String
deriving DecidableEq

/-- One director governance profile; accumulates. -/
structure DirectorProfile where
  company_id : String
  person_id : String
  role : Option String
  independent : Bool
  director_since : Option Int
  lead_independent_director : Bool
  committees : Option String
  primary_occupation : Option String
  other_public_boards : Option String
deriving DecidableEq

/-- One director-pay policy component; scoped to a company. -/
structure DirectorCompPolicy where
  company_id : String
  component : Option String
  amount_usd : ℚ
  unit : Option String
  notes : Option String
deriving DecidableEq

/-- One provenance record from a manifest file. -/
structure SourceManifestEntry where
  company_id : String
  file_path : String
  description : String
  last_updated : Date
deriving DecidableEq

/-- Replace-or-append keyed write: when a record with the same key is
present it is replaced in place, otherwise the record is appended. -/
def upsertBy {α κ : Type} [DecidableEq κ] (key : α → κ) (xs : List α) (r : α) : List α :=
  if xs.any (fun x => key x = key r) then
    xs.map (fun x => if key x = key r then r else x)
  else xs ++ [r]

/-- Fold a sequence of keyed writes. -/
def upsertListBy {α κ : Type} [DecidableEq κ] (key : α → κ) (xs : List α) (rs : List α) : List α :=
  rs.foldl (upsertBy key) xs

/-- The (company, person, fiscal-year-end) natural key of executive pay. -/
def execKey (r : ExecutiveCompensation) : String × String × Date :=
  (r.company_id, r.person_id, r.fiscal_year_end)

/-- The (company, person, fiscal-year-end) natural key of director pay. -/
def dirKey (r : DirectorCompensation) : String × String × Date :=
  (r.company_id, r.person_id, r.fiscal_year_end)

/-- The loader-facing repository (League Manager).  Its class is not under
`src/`; the container fields and add methods follow the loader's call sites
and the spec's per-category upsert/append semantics. -/
structure LeagueManager where
  companies : List (String × Company) := []
  people : List (String × Person) := []
  executive_comp : List ExecutiveCompensation := []
  director_comp : List DirectorCompensation := []
  equity_grants : List ExecutiveEquityGrant := []
  beneficial_ownership : List BeneficialOwnershipRecord := []
  director_profiles : List DirectorProfile := []
  director_policies : List DirectorCompPolicy := []
  source_manifest : List SourceManifestEntry := []

/-- Company lookup by identifier. -/
def LeagueManager.get_company (lm : LeagueManager) (slug : String) : Option Company :=
  (lm.companies.find? (fun e => e.1 = slug)).map (·.2)

/-- Person lookup by identifier. -/
def LeagueManager.get_person (lm : LeagueManager) (slug : String) : Option Person :=
  (lm.people.find? (fun e => e.1 = slug)).map (·.2)

/-- Register a company under its unique identifier (dict-style write). -/
def LeagueManager.add_company (lm : LeagueManager) (c : Company) : LeagueManager :=
  { lm with companies := upsertBy Prod.fst lm.companies (c.company_id, c) }

/-- Register a person under their unique identifier (dict-style write). -/
def LeagueManager.add_person (lm : LeagueManager) (p : Person) : LeagueManager :=
  { lm with people := upsertBy Prod.fst lm.people (p.person_id, p) }

/-- Modelled from the spec: `add_executive_comp` lives in the repository
module missing from `src/`; the spec makes (company, person, fiscal-year-end)
the natural key and re-importing the same triple a last-write-wins upsert. -/
def LeagueManager.add_executive_comp (lm : LeagueManager) (r : ExecutiveCompensation) :
    LeagueManager :=
  { lm with executive_comp := upsertBy execKey lm.executive_comp r }

/-- Modelled from the spec: `add_director_comp` mirrors the executive upsert,
keyed by (company, person, fiscal-year-end). -/
def LeagueManager.add_director_comp (lm : LeagueManager) (r : DirectorCompensation) :
    LeagueManager :=
  { lm with director_comp := upsertBy dirKey lm.director_comp r }

/-- Modelled from the spec: equity grants accumulate as a sequence. -/
def LeagueManager.add_equity_grant (lm : LeagueManager) (r : ExecutiveEquityGrant) :
    LeagueManager :=
  { lm with equity_grants := lm.equity_grants ++ [r] }

/-- Modelled from the spec: ownership records accumulate. -/
def LeagueManager.add_beneficial_ownership (lm : LeagueManager)
    (r : BeneficialOwnershipRecord) : LeagueManager :=
  { lm with beneficial_ownership := lm.beneficial_ownership ++ [r] }

/-- Modelled from the spec: director profiles accumulate (duplicates
tolerated). -/
def LeagueManager.add_director_profile (lm : LeagueManager) (r : DirectorProfile) :
    LeagueManager :=
  { lm with director_profiles := lm.director_profiles ++ [r] }

/-- Modelled from the spec: policy components accumulate. -/
def LeagueManager.add_director_policy (lm : LeagueManager) (r : DirectorCompPolicy) :
    LeagueManager :=
  { lm with director_policies := lm.director_policies ++ [r] }

/-- Modelled from the spec: provenance entries accumulate. -/
def LeagueManager.add_source_manifest_entry (lm : LeagueManager) (r : SourceManifestEntry) :
    LeagueManager :=
  { lm with source_manifest := lm.source_manifest ++ [r] }

/-- Modelled from the spec: `get_available_years` reports the set of fiscal
years now present; rendered as the distinct executive-compensation
fiscal-year-ends in first-seen order. -/
def LeagueManager.get_available_years (lm : LeagueManager) : List Date :=
  (lm.executive_comp.map (·.fiscal_year_end)).eraseDups

end Loader

/-! ## The company-folder loader (`company_folder_loader.py`) -/

/-- Python `str.upper()` on ASCII data. -/
def pyUpper (s : String) : String :=
  ⟨s.data.map Char.toUpper⟩

/-- Python `str.title()`: uppercase a letter that follows a non-letter,
lowercase the rest. -/
def pyTitleGo (prevAlpha : Bool) : List Char → List Char
  | [] => []
  | c :: rest =>
    let c' := if c.isAlpha then (if prevAlpha then c.toLower else c.toUpper) else c
    c' :: pyTitleGo c.isAlpha rest

/-- Python `str.title()`. -/
def pyTitle (s : String) : String :=
  ⟨pyTitleGo false s.data⟩

/-- Python `str.replace("-", " ")`. -/
def replaceDashSpace (s : String) : String :=
  ⟨s.data.map (fun c => if c = '-' then ' ' else c)⟩

/-- Python `int(year)` for the all-digit year tokens discovery admits. -/
def strToNat (s : String) : Nat :=
  digitsVal s.data

/-- Stand-in for `date.today()` in manifest provenance entries; no claim
depends on its value. -/
def todayDate : Date := ⟨2026, 1, 1⟩

/-- Python `row.get(k, default)` when the default is an arbitrary value
(used with bool defaults by the director-profile importer). -/
def rowGetPy (row : Row) (k : String) (d : PyVal) : PyVal :=
  match row.lookup k with
  | some v => PyVal.ofOpt v
  | none => d

namespace Loader

/-- The loader's mutable state: the repository being filled and the
accumulated warning strings. -/
structure LoaderState where
  league_manager : LeagueManager := {}
  load_warnings : List String := []

/-- Append one warning. -/
def warn (st : LoaderState) (msg : String) : LoaderState :=
  { st with load_warnings := st.load_warnings ++ [msg] }

/-- The external object-store capability: list blob names under a prefix and
read one CSV blob as stripped header-to-value rows.  An `Except.error` is a
raised exception carrying `str(exc)`. -/
structure BlobStore where
  list_blobs : String → Except String (List String)
  read_rows : String → Except String (List Row)

/-- `_read_csv_blob`: download failures become a warning and an empty row
list (never a raised exception); an empty file also warns. -/
def _read_csv_blob (store : BlobStore) (st : LoaderState) (blob_name : String) :
    List Row × LoaderState :=
  match store.read_rows blob_name with
  | Except.error exc =>
    ([], warn st s!"Failed to download {blob_name}: {exc}")
  | Except.ok rows =>
    if rows.isEmpty then (rows, warn st s!"No rows found in {blob_name}")
    else (rows, st)

/-- `_ensure_company`: create the company from the manifest row, or merge new
information into the existing one.  The source merges string fields with
`row.get(key, old)` — the old value survives only when the key is absent —
while numeric fields use `_to_float(...) or old`, keeping the old value
whenever the incoming one coerces to zero.  The merged company is written
back to the repository, mirroring Python's in-place mutation of the shared
object. -/
def _ensure_company (st : LoaderState) (company_slug : String) (manifest_row : Row)
    (year : String) : Company × LoaderState :=
  let fallbackDate : Date := ⟨strToNat year, 12, 31⟩
  let fiscal_year_end := _parse_date (manifest_row.get "fiscal_year_end") (some fallbackDate)
  match st.league_manager.get_company company_slug with
  | none =>
    let company : Company :=
      { company_id := company_slug
        company_name := manifest_row.getD "company_name"
          (some (pyTitle (replaceDashSpace company_slug)))
        ticker := manifest_row.getD "ticker" (manifest_row.getD "stock_ticker" (some "UNK"))
        fiscal_year_end := fiscal_year_end.getD fallbackDate
        source_url := manifest_row.getD "source_url" (some "")
        notes := manifest_row.get "notes"
        market_cap_usd := _to_float (PyVal.ofOpt (manifest_row.get "market_cap_usd"))
        revenue_usd := _to_float (PyVal.ofOpt (manifest_row.get "revenue_usd"))
        cap_budget_usd := _to_float (PyVal.ofOpt (manifest_row.get "cap_budget_usd"))
        sector := manifest_row.get "sector"
        founded_year := _to_int (PyVal.ofOpt (manifest_row.get "founded_year")) }
    (company, { st with league_manager := st.league_manager.add_company company })
  | some company =>
    let company : Company :=
      { company with
        company_name := manifest_row.getD "company_name" company.company_name
        ticker := manifest_row.getD "ticker" company.ticker
        fiscal_year_end := fiscal_year_end.getD company.fiscal_year_end
        source_url := manifest_row.getD "source_url" company.source_url
        notes := manifest_row.getD "notes" company.notes
        market_cap_usd := pyOrQ (_to_float (PyVal.ofOpt (manifest_row.get "market_cap_usd")))
          company.market_cap_usd
        revenue_usd := pyOrQ (_to_float (PyVal.ofOpt (manifest_row.get "revenue_usd")))
          company.revenue_usd
        cap_budget_usd := pyOrQ (_to_float (PyVal.ofOpt (manifest_row.get "cap_budget_usd")))
          company.cap_budget_usd
        sector := manifest_row.getD "sector" company.sector
        founded_year := pyOrInt (_to_int (PyVal.ofOpt (manifest_row.get "founded_year")))
          company.founded_year }
    (company, { st with league_manager := st.league_manager.add_company company })

/-- The keyword arguments of `_ensure_person`. -/
structure PersonArgs where
  person_id : Option String := none
  full_name : String
  current_title : String := ""
  is_executive : Bool := false
  is_director : Bool := false
  bio_short : Option String := none
  linkedin_url : Option String := none
  photo_url : Option String := none
  years_experience : Option Int := none
  education : Option String := none
  status : Option String := none

/-- `_ensure_person`: create the person, or merge: a non-empty incoming
title/status overwrites, the optional descriptive fields fill only a hole,
and the role flags are OR-ed.  The result is written back to the repository. -/
def _ensure_person (st : LoaderState) (args : PersonArgs) : Person × LoaderState :=
  let slug := if strTruthy args.person_id then args.person_id.getD ""
              else _slugify args.full_name
  match st.league_manager.get_person slug with
  | none =>
    let person : Person :=
      { person_id := slug
        full_name := args.full_name
        current_title := args.current_title
        is_executive := args.is_executive
        is_director := args.is_director
        bio_short := args.bio_short
        linkedin_url := args.linkedin_url
        photo_url := args.photo_url
        years_experience := args.years_experience
        education := args.education
        status := args.status }
    (person, { st with league_manager := st.league_manager.add_person person })
  | some person =>
    let person : Person :=
      { person with
        current_title := if args.current_title ≠ "" then args.current_title
                         else person.current_title
        bio_short := if strTruthy args.bio_short && !strTruthy person.bio_short then
                       args.bio_short
                     else person.bio_short
        linkedin_url := if strTruthy args.linkedin_url && !strTruthy person.linkedin_url then
                          args.linkedin_url
                        else person.linkedin_url
        photo_url := if strTruthy args.photo_url && !strTruthy person.photo_url then
                       args.photo_url
                     else person.photo_url
        years_experience := if intTruthy args.years_experience &&
                               !intTruthy person.years_experience then
                              args.years_experience
                            else person.years_experience
        education := if strTruthy args.education && !strTruthy person.education then
                       args.education
                     else person.education
        status := if strTruthy args.status then args.status else person.status
        is_executive := person.is_executive || args.is_executive
        is_director := person.is_director || args.is_director }
    (person, { st with league_manager := st.league_manager.add_person person })

/-- The provenance-entry loop of `_import_manifest`. -/
def manifestEntriesLoop (company_slug : String) (st : LoaderState) : List Row → LoaderState
  | [] => st
  | row :: rest =>
    let entry : SourceManifestEntry :=
      { company_id := company_slug
        file_path := orStr (row.get "file_path") (row.get "file")
        description := orStr (row.get "description") (row.get "what")
        last_updated := (_parse_date (row.get "last_updated") (some todayDate)).getD todayDate }
    manifestEntriesLoop company_slug
      { st with league_manager := st.league_manager.add_source_manifest_entry entry } rest

/-- `_import_manifest`: record provenance entries for every row and return
the first row with the alias keys defaulted in. -/
def _import_manifest (store : BlobStore) (st : LoaderState)
    (company_slug _year blob_name : String) : Row × LoaderState :=
  let rs := _read_csv_blob store st blob_name
  let manifest := rs.1.headD ⟨[]⟩
  let st := manifestEntriesLoop company_slug rs.2 rs.1
  let manifest := manifest.setdefault "company_name" (manifest.get "name")
  let manifest := manifest.setdefault "ticker" (manifest.get "symbol")
  let manifest := manifest.setdefault "fiscal_year_end" (manifest.get "year_end")
  let manifest := manifest.setdefault "source_url" (manifest.get "source_url")
  (manifest, st)

end Loader

namespace Loader

/-- The rows `_read_csv_blob` yields, as a pure function of the store. -/
def blobRows (store : BlobStore) (blob_name : String) : List Row :=
  match store.read_rows blob_name with
  | Except.error _ => []
  | Except.ok rows => rows

/-- The person identifier `_ensure_person` derives. -/
def personSlug (pid : Option String) (full_name : String) : String :=
  if strTruthy pid then pid.getD "" else _slugify full_name

/-- Whether the executive/grant importers accept a row. -/
def isNamedExec (row : Row) : Bool :=
  ((_get_first row ["full_name", "executive_name", "name"] (some "")).getD "") ≠ ""

/-- Whether the director importers accept a row. -/
def isNamedDir (row : Row) : Bool :=
  ((_get_first row ["full_name", "director_name", "name"] (some "")).getD "") ≠ ""

/-- Whether the ownership importer accepts a row. -/
def isNamedOwn (row : Row) : Bool :=
  ((_get_first row ["full_name", "name"] (some "")).getD "") ≠ ""

/-- The executive-compensation record a named row produces. -/
def execRecordOfRow (cid year : String) (row : Row) : ExecutiveCompensation :=
  let full_name := (_get_first row ["full_name", "executive_name", "name"] (some "")).getD ""
  let fallbackDate : Date := ⟨strToNat year, 12, 31⟩
  let salary_usd := _get_float row ["salary_usd", "base_salary_usd", "base_salary", "salary"] 0
  let bonus_usd := _get_float row ["bonus_usd", "cash_bonus_usd", "bonus", "cash_bonus"] 0
  let stock_awards_usd := _get_float row
    ["stock_awards_usd", "stock_awards_fair_value_usd", "stock_awards", "stock_awards_value"] 0
  let option_awards_usd := _get_float row
    ["option_awards_usd", "options_awards_usd", "option_awards", "options_awards"] 0
  let non_equity_usd := _get_float row
    ["non_equity_incentive_usd", "non_equity_incentive_plan_usd", "non_equity_incentive"] 0
  let pension_change_usd := _get_float row
    ["pension_change_usd", "change_in_pension_and_defcomp_earnings_usd", "pension_change"] 0
  let all_other_usd := _get_float row
    ["all_other_comp_usd", "all_other_compensation_usd", "other_compensation_usd", "all_other_comp"] 0
  let total_comp := _get_float row
    ["total_comp_usd", "total_compensation_usd", "total_compensation"] 0
  let total_comp := if total_comp = 0 then
      salary_usd + bonus_usd + stock_awards_usd + option_awards_usd +
        non_equity_usd + pension_change_usd + all_other_usd
    else total_comp
  { company_id := cid
    person_id := personSlug (row.get "person_id") full_name
    fiscal_year_end := (_parse_date (row.get "fiscal_year_end") (some fallbackDate)).getD
      fallbackDate
    salary_usd := salary_usd
    bonus_usd := bonus_usd
    stock_awards_usd := stock_awards_usd
    option_awards_usd := option_awards_usd
    non_equity_incentive_usd := non_equity_usd
    pension_change_usd := pension_change_usd
    all_other_comp_usd := all_other_usd
    total_comp_usd := total_comp
    source := row.getD "source" (some s!"{year} Proxy Statement") }

/-- The executive records a row list produces, in order. -/
def execRecords (cid year : String) (rows : List Row) : List ExecutiveCompensation :=
  (rows.filter isNamedExec).map (execRecordOfRow cid year)

/-- How the executive importer refines the company's fiscal-year-end. -/
def execFyeRows (fye : Date) (rows : List Row) : Date :=
  rows.foldl (fun f row =>
    if isNamedExec row then (_parse_date (row.get "fiscal_year_end") none).getD f else f) fye

/-- The director-compensation record a named row produces. -/
def dirRecordOfRow (cid : String) (fye : Date) (row : Row) : DirectorCompensation :=
  let full_name := (_get_first row ["full_name", "director_name", "name"] (some "")).getD ""
  let fyYear := toString fye.year
  { company_id := cid
    person_id := personSlug (row.get "person_id") full_name
    fiscal_year_end := (_parse_date (row.get "fiscal_year_end") (some fye)).getD fye
    fees_cash_usd := _get_float row ["fees_cash_usd", "cash_fees_usd", "cash_retainers_usd"] 0
    stock_awards_usd := _get_float row ["stock_awards_usd", "stock_grant_usd"] 0
    all_other_comp_usd := _get_float row ["all_other_comp_usd", "all_other_compensation_usd"] 0
    total_usd := _get_float row ["total_usd", "total_comp_usd", "total_compensation_usd"] 0
    source := row.getD "source" (some s!"{fyYear} Director Compensation") }

/-- The director records a row list produces, in order. -/
def dirRecords (cid : String) (fye : Date) (rows : List Row) : List DirectorCompensation :=
  (rows.filter isNamedDir).map (dirRecordOfRow cid fye)

/-- The in-place company enrichment one named executive row performs. -/
def execRowCompanyUpdate (row : Row) (company : Company) : Company :=
  let company := if strTruthy (row.get "company_name") then
      { company with company_name := row.get "company_name" } else company
  let company := if strTruthy (row.get "ticker") then
      { company with ticker := row.get "ticker" } else company
  let company := if strTruthy (row.get "source_url") then
      { company with source_url := row.get "source_url" } else company
  match _parse_date (row.get "fiscal_year_end") none with
  | some d => { company with fiscal_year_end := d }
  | none => company

/-- Row loop of `_import_executive_compensation`: rows lacking a name are
skipped; otherwise the person is resolved, company descriptive fields are
refined in place, and the typed record is upserted.  The record is the pure
`execRecordOfRow` with its person identifier taken from the resolved person
(the two agree on well-formed states). -/
def execCompRows (year : String) (company : Company) (st : LoaderState) :
    List Row → Company × LoaderState
  | [] => (company, st)
  | row :: rest =>
    let full_name := (_get_first row ["full_name", "executive_name", "name"] (some "")).getD ""
    if full_name = "" then execCompRows year company st rest
    else
      let pst := _ensure_person st
        { person_id := row.get "person_id"
          full_name := full_name
          current_title := (_get_first row ["current_title", "title", "position"] (some "")).getD ""
          is_executive := true
          bio_short := row.get "bio_short"
          linkedin_url := row.get "linkedin_url"
          photo_url := row.get "photo_url"
          years_experience := _get_int row ["years_experience", "experience_years"] (some 0)
          education := _get_first row ["education", "education_background"] none
          status := _get_first row ["status", "employment_status"] none }
      let person := pst.1
      let st := pst.2
      let company := execRowCompanyUpdate row company
      let record : ExecutiveCompensation :=
        { execRecordOfRow company.company_id year row with person_id := person.person_id }
      let st := { st with league_manager := st.league_manager.add_executive_comp record }
      execCompRows year company st rest

/-- `_import_executive_compensation`. -/
def _import_executive_compensation (store : BlobStore) (company : Company)
    (year blob_name : String) (st : LoaderState) : Company × LoaderState :=
  let rs := _read_csv_blob store st blob_name
  execCompRows year company rs.2 rs.1

/-- The equity-grant record a named row produces, given the resolved
person identifier. -/
def grantRecordOfRow (company : Company) (pid : String) (row : Row) : ExecutiveEquityGrant :=
  let grant_date := _parse_date (row.get "grant_date") none
  let threshold_units := _get_int row ["threshold_units"] (some 0)
  let target_units := _get_int row ["target_units", "rsu_units"] (some 0)
  let max_units := _get_int row ["max_units"] (some 0)
  let target_units :=
    if pyUpper ((row.getD "award_type" (some "")).getD "") = "RSU" && target_units = some 0
    then _get_int row ["rsu_units"] (some 0)
    else target_units
  let fyYear := toString company.fiscal_year_end.year
  { company_id := company.company_id
    person_id := pid
    grant_date := grant_date.getD company.fiscal_year_end
    award_type := row.getD "type" (row.getD "award_type" (some ""))
    threshold_units := threshold_units
    target_units := target_units
    max_units := max_units
    grant_date_fair_value_usd := _get_float row
      ["grant_date_fair_value_usd", "grant_date_value_usd"] 0
    vesting_schedule_short := row.getD "vesting_schedule_short" (row.get "vesting_schedule")
    source := row.getD "source" (some s!"{fyYear} Plan-Based Awards") }

/-- Row loop of `_import_equity_grants`. -/
def equityGrantRows (company : Company) (st : LoaderState) : List Row → LoaderState
  | [] => st
  | row :: rest =>
    let full_name := (_get_first row ["full_name", "executive_name", "name"] (some "")).getD ""
    if full_name = "" then equityGrantRows company st rest
    else
      let pst := _ensure_person st
        { person_id := row.get "person_id"
          full_name := full_name
          current_title := (_get_first row ["current_title", "title"] (some "")).getD ""
          is_executive := true }
      let person := pst.1
      let st := pst.2
      let record := grantRecordOfRow company person.person_id row
      let st := { st with league_manager := st.league_manager.add_equity_grant record }
      equityGrantRows company st rest

/-- `_import_equity_grants`. -/
def _import_equity_grants (store : BlobStore) (company : Company) (blob_name : String)
    (st : LoaderState) : LoaderState :=
  let rs := _read_csv_blob store st blob_name
  equityGrantRows company rs.2 rs.1

/-- The beneficial-ownership record a named row produces, given the
resolved person. -/
def ownRecordOfRow (company : Company) (person : Person) (row : Row) :
    BeneficialOwnershipRecord :=
  { company_id := company.company_id
    person_id := person.person_id
    role := _get_first row ["role", "title"] (some person.current_title)
    total_shares := _get_int row
      ["total_shares", "total_shares_owned", "total_beneficial_ownership"] (some 0)
    sole_voting_power := _get_int row
      ["sole_voting_power", "direct_or_indirect_sole_voting", "ownership_of_common_stock"]
      (some 0)
    shared_voting_power := _get_int row
      ["shared_voting_power", "indirect_shared_voting",
       "equity_awards_exercisable_or_vesting_within_60d"] (some 0)
    percent_of_class := _get_float row ["percent_of_class", "percent_class"] 0
    as_of_date := (_parse_date (row.get "as_of_date")
      (some company.fiscal_year_end)).getD company.fiscal_year_end
    notes := row.get "notes" }

/-- Row loop of `_import_beneficial_ownership`. -/
def ownershipRows (company : Company) (st : LoaderState) : List Row → LoaderState
  | [] => st
  | row :: rest =>
    let full_name := (_get_first row ["full_name", "name"] (some "")).getD ""
    if full_name = "" then ownershipRows company st rest
    else
      let pst := _ensure_person st
        { person_id := row.get "person_id"
          full_name := full_name
          current_title := (_get_first row ["current_title", "role", "title"] (some "")).getD ""
          is_executive := _to_bool (PyVal.ofOpt (row.get "is_executive"))
          is_director := _to_bool (PyVal.ofOpt (row.get "is_director")) }
      let person := pst.1
      let st := pst.2
      let record := ownRecordOfRow company person row
      let st := { st with league_manager := st.league_manager.add_beneficial_ownership record }
      ownershipRows company st rest

/-- `_import_beneficial_ownership`. -/
def _import_beneficial_ownership (store : BlobStore) (company : Company) (blob_name : String)
    (st : LoaderState) : LoaderState :=
  let rs := _read_csv_blob store st blob_name
  ownershipRows company rs.2 rs.1

/-- Row loop of `_import_director_compensation`: the record is the pure
`dirRecordOfRow` at the company's current fiscal-year-end, with its person
identifier taken from the resolved person. -/
def directorCompRows (company : Company) (st : LoaderState) : List Row → LoaderState
  | [] => st
  | row :: rest =>
    let full_name := (_get_first row ["full_name", "director_name", "name"] (some "")).getD ""
    if full_name = "" then directorCompRows company st rest
    else
      let pst := _ensure_person st
        { person_id := row.get "person_id"
          full_name := full_name
          current_title := (_get_first row ["role", "title"] (some "Director")).getD ""
          is_director := true }
      let person := pst.1
      let st := pst.2
      let record : DirectorCompensation :=
        { dirRecordOfRow company.company_id company.fiscal_year_end row with
            person_id := person.person_id }
      let st := { st with league_manager := st.league_manager.add_director_comp record }
      directorCompRows company st rest

/-- `_import_director_compensation`. -/
def _import_director_compensation (store : BlobStore) (company : Company) (blob_name : String)
    (st : LoaderState) : LoaderState :=
  let rs := _read_csv_blob store st blob_name
  directorCompRows company rs.2 rs.1

/-- The director profile a named row produces, given the resolved person. -/
def profRecordOfRow (company : Company) (person : Person) (row : Row) : DirectorProfile :=
  { company_id := company.company_id
    person_id := person.person_id
    role := _get_first row ["role", "title"] (some person.current_title)
    independent := _to_bool
      (rowGetPy row "independent" (rowGetPy row "is_independent" (PyVal.vBool true)))
    director_since := _get_int row ["director_since"] none
    lead_independent_director := _to_bool
      (rowGetPy row "lead_independent_director"
        (rowGetPy row "lead_independent" (PyVal.vBool false)))
    committees := row.get "committees"
    primary_occupation := row.getD "primary_occupation" (row.get "occupation")
    other_public_boards := row.get "other_public_boards" }

/-- Row loop of `_import_director_profiles`. -/
def directorProfileRows (company : Company) (st : LoaderState) : List Row → LoaderState
  | [] => st
  | row :: rest =>
    let full_name := (_get_first row ["full_name", "director_name", "name"] (some "")).getD ""
    if full_name = "" then directorProfileRows company st rest
    else
      let pst := _ensure_person st
        { person_id := row.get "person_id"
          full_name := full_name
          current_title := (_get_first row ["role", "title"] (some "Director")).getD ""
          is_director := true }
      let person := pst.1
      let st := pst.2
      let profile := profRecordOfRow company person row
      let st := { st with league_manager := st.league_manager.add_director_profile profile }
      directorProfileRows company st rest

/-- `_import_director_profiles`. -/
def _import_director_profiles (store : BlobStore) (company : Company) (blob_name : String)
    (st : LoaderState) : LoaderState :=
  let rs := _read_csv_blob store st blob_name
  directorProfileRows company rs.2 rs.1

/-- The policy component a row with a component produces. -/
def policyRecordOfRow (company : Company) (row : Row) : DirectorCompPolicy :=
  { company_id := company.company_id
    component := _get_first row ["component", "policy_item"] (some "")
    amount_usd := _get_float row ["amount_usd", "value_usd"] 0
    unit := row.get "unit"
    notes := row.get "notes" }

/-- Row loop of `_import_director_policy_file`: rows lacking a component are
skipped; no person is involved. -/
def directorPolicyRows (company : Company) (st : LoaderState) : List Row → LoaderState
  | [] => st
  | row :: rest =>
    let component := _get_first row ["component", "policy_item"] (some "")
    if !strTruthy component then directorPolicyRows company st rest
    else
      let policy := policyRecordOfRow company row
      let st := { st with league_manager := st.league_manager.add_director_policy policy }
      directorPolicyRows company st rest

/-- `_import_director_policy_file`. -/
def _import_director_policy_file (store : BlobStore) (company : Company) (blob_name : String)
    (st : LoaderState) : LoaderState :=
  let rs := _read_csv_blob store st blob_name
  directorPolicyRows company rs.2 rs.1

end Loader

/-! ## File classification and the load orchestrator -/

/-- The categories of the filename dispatch in `load_company_year`. -/
inductive FileCategory where
  | manifest
  | execComp
  | equityGrants
  | ownership
  | directorComp
  | directorPolicy
  | directorProfiles
  | unrecognized
  | notCsv
deriving DecidableEq

/-- The lowercased final path segment of a blob name, Python
`blob.name.split("/")[-1].lower()`. -/
def blobFilename (blob_name : String) : String :=
  pyLower ((pySplitSlash blob_name).getLastD "")

/-- The filename dispatch of `load_company_year`, branch for branch in
source order: the `director_compensation` substring test precedes the
`director_comp_policy`/`director_compensation_policy` test, so the second
disjunct of the policy branch can never fire. -/
def classify_filename (filename : String) : FileCategory :=
  if !strEndsWith filename ".csv" then FileCategory.notCsv
  else if strEndsWith filename "_manifest.csv" then FileCategory.manifest
  else if strContains filename "executive_compensation" then FileCategory.execComp
  else if strContains filename "executive_equity_grants" then FileCategory.equityGrants
  else if strContains filename "beneficial_ownership" then FileCategory.ownership
  else if strContains filename "director_compensation" then FileCategory.directorComp
  else if strContains filename "director_comp_policy" ||
          strContains filename "director_compensation_policy" then
    FileCategory.directorPolicy
  else if strContains filename "directors_profiles" ||
          strContains filename "director_profiles" then
    FileCategory.directorProfiles
  else FileCategory.unrecognized

namespace Loader

/-- One iteration of the classification loop of `load_company_year`:
dispatch the blob to its importer and bump the recognized-file counter.
The company record is threaded through, mirroring Python's shared mutable
object. -/
def processBlob (store : BlobStore) (year : String)
    (acc : Company × LoaderState × Nat) (blob_name : String) :
    Company × LoaderState × Nat :=
  let company := acc.1
  let st := acc.2.1
  let recognized := acc.2.2
  match classify_filename (blobFilename blob_name) with
  | FileCategory.notCsv => acc
  | FileCategory.manifest => acc
  | FileCategory.execComp =>
    let r := _import_executive_compensation store company year blob_name st
    (r.1, r.2, recognized + 1)
  | FileCategory.equityGrants =>
    (company, _import_equity_grants store company blob_name st, recognized + 1)
  | FileCategory.ownership =>
    (company, _import_beneficial_ownership store company blob_name st, recognized + 1)
  | FileCategory.directorComp =>
    (company, _import_director_compensation store company blob_name st, recognized + 1)
  | FileCategory.directorPolicy =>
    (company, _import_director_policy_file store company blob_name st, recognized + 1)
  | FileCategory.directorProfiles =>
    (company, _import_director_profiles store company blob_name st, recognized + 1)
  | FileCategory.unrecognized => acc

/-- The tail of `load_company_year` after the manifest import: warn on an
empty manifest, resolve the company, run the classification loop, write the
company back, and warn when nothing was recognized. -/
def loadYearCore (store : BlobStore) (company_slug year : String) (blobs : List String)
    (ms : Row × LoaderState) : LoaderState :=
  let manifest_row := ms.1
  let st := ms.2
  let st := if manifest_row.entries.isEmpty then
      warn st s!"Manifest not found for {company_slug} {year}; using defaults"
    else st
  let cs := _ensure_company st company_slug manifest_row year
  let fold := blobs.foldl (processBlob store year) (cs.1, cs.2, 0)
  let st := { fold.2.1 with league_manager := fold.2.1.league_manager.add_company fold.1 }
  if fold.2.2 = 0 then
    warn st s!"No recognized CSVs for {company_slug} {year}"
  else st

/-- `load_company_year`: list the year's blobs (a raised listing exception
propagates with the warnings collected so far), import the manifest first,
then run `loadYearCore`. -/
def load_company_year (store : BlobStore) (st : LoaderState)
    (company_slug year : String) : Except (String × LoaderState) LoaderState :=
  match store.list_blobs s!"companies/{company_slug}/{year}/" with
  | Except.error exc => Except.error (exc, st)
  | Except.ok blobs =>
    if blobs.isEmpty then
      Except.ok (warn st s!"No files found for {company_slug} {year}")
    else
      let ms :=
        match blobs.find? (fun b => strEndsWith (blobFilename b) "_manifest.csv") with
        | some b => _import_manifest store st company_slug year b
        | none => (⟨[]⟩, st)
      Except.ok (loadYearCore store company_slug year blobs ms)

/-- Lexicographic comparison of character lists, Python string `<`. -/
def charListLt : List Char → List Char → Bool
  | [], [] => false
  | [], _ :: _ => true
  | _ :: _, [] => false
  | a :: as, b :: bs => if a < b then true else if b < a then false else charListLt as bs

/-- Python `a < b` on strings. -/
def strLt (a b : String) : Bool := charListLt a.data b.data

/-- Insert into an ascending list. -/
def insertSorted (x : String) : List String → List String
  | [] => [x]
  | y :: t => if strLt y x then y :: insertSorted x t else x :: y :: t

/-- Ascending insertion sort, the model of Python `sorted`. -/
def sortStrings (l : List String) : List String := l.foldr insertSorted []

/-- Deduplicate preserving first occurrence, then sort ascending: Python
`sorted(set)` for strings. -/
def sortedSet (l : List String) : List String :=
  sortStrings (l.foldl (fun acc x => if acc.contains x then acc else acc ++ [x]) [])

/-- `list_company_folders`: second path segments under `companies/`. -/
def list_company_folders (store : BlobStore) : Except String (List String) :=
  match store.list_blobs "companies/" with
  | Except.error exc => Except.error exc
  | Except.ok names =>
    let folders := names.foldl (fun acc name =>
      let parts := pySplitSlash name
      if parts.length ≥ 2 && parts.headD "" = "companies" && parts.getD 1 "" ≠ "" then
        acc ++ [parts.getD 1 ""]
      else acc) []
    Except.ok (sortedSet folders)

/-- `list_years_for_company`: third path segments that are exactly four
digits. -/
def list_years_for_company (store : BlobStore) (company_slug : String) :
    Except String (List String) :=
  match store.list_blobs s!"companies/{company_slug}/" with
  | Except.error exc => Except.error exc
  | Except.ok names =>
    let years := names.foldl (fun acc name =>
      let parts := pySplitSlash name
      if parts.length ≥ 3 && parts.headD "" = "companies" && parts.getD 1 "" = company_slug
          && pyIsDigit (parts.getD 2 "") && (parts.getD 2 "").length = 4 then
        acc ++ [parts.getD 2 ""]
      else acc) []
    Except.ok (sortedSet years)

/-- Python `max` over a nonempty string list (later wins ties are moot). -/
def maxString (l : List String) : String :=
  match l with
  | [] => ""
  | h :: t => t.foldl (fun acc b => if strLt acc b then b else acc) h

/-- The inner `for year in target_years` loop of `load_all_company_data`. -/
def loadYearsLoop (store : BlobStore) (company_slug : String) (st : LoaderState) :
    List String → Except (String × LoaderState) LoaderState
  | [] => Except.ok st
  | y :: ys =>
    match load_company_year store st company_slug y with
    | Except.error e => Except.error e
    | Except.ok st' => loadYearsLoop store company_slug st' ys

/-- The `for company_slug in company_slugs` loop of `load_all_company_data`,
including the target-year selection. -/
def loadCompaniesLoop (store : BlobStore) (specific_year : Option String)
    (load_all_years : Bool) (st : LoaderState) :
    List String → Except (String × LoaderState) LoaderState
  | [] => Except.ok st
  | slug :: rest =>
    match list_years_for_company store slug with
    | Except.error exc => Except.error (exc, st)
    | Except.ok years =>
      let target_years :=
        if strTruthy specific_year && years.contains (specific_year.getD "") then
          [specific_year.getD ""]
        else if load_all_years then years
        else if !years.isEmpty then [maxString years]
        else []
      match loadYearsLoop store slug st target_years with
      | Except.error e => Except.error e
      | Except.ok st' => loadCompaniesLoop store specific_year load_all_years st' rest

/-- The structured result of `load_all_company_data`. -/
inductive LoadResult where
  | success (companies_loaded : List String)
      (companies_count people_count executive_comp_count : Nat)
      (years_loaded : List String) (warnings : List String)
      (league_manager : LeagueManager)
  | error (message : String) (warnings : List String)

/-- `load_all_company_data`: start from a fresh repository and empty
warnings, discover companies and years, load each target year, and report;
the single `try`/`except` wraps discovery and the per-company loop alike, so
any raised exception anywhere in the pass produces the error result carrying
the warnings collected before the failure. -/
def load_all_company_data (store : BlobStore) (specific_year : Option String)
    (load_all_years : Bool) : LoadResult :=
  let st : LoaderState := {}
  match list_company_folders store with
  | Except.error exc => LoadResult.error exc st.load_warnings
  | Except.ok company_slugs =>
    match loadCompaniesLoop store specific_year load_all_years st company_slugs with
    | Except.error (exc, stf) => LoadResult.error exc stf.load_warnings
    | Except.ok stf =>
      LoadResult.success
        (stf.league_manager.companies.map (·.1))
        stf.league_manager.companies.length
        stf.league_manager.people.length
        stf.league_manager.executive_comp.length
        (stf.league_manager.get_available_years.map (fun d => toString d.year))
        stf.load_warnings
        stf.league_manager

end Loader

/-! ## Claims about field coercion (C9, C8) and classification (C3) -/

/-- C9: `_to_float` is total (never raises) and returns: zero on empty input
and on the case-insensitive markers na/n-a/none; zero when the cleaned text
still fails to parse as a float; and otherwise the parsed value of the text
with commas and dollar signs stripped — in particular `"$1,234.56"` maps to
`1234.56`. -/
theorem to_float_contract :
    (∀ s : String, pyStrip s = "" ∨ pyLower (pyStrip s) ∈ naMarkers →
      _to_float (PyVal.vStr s) = 0) ∧
    (∀ s : String, pyFloatLit (removeChars [',', '$'] (pyStrip s)) = none →
      _to_float (PyVal.vStr s) = 0) ∧
    (∀ (s : String) (f : FloatLit),
      ¬ (pyStrip s = "" ∨ pyLower (pyStrip s) ∈ naMarkers) →
      pyFloatLit (removeChars [',', '$'] (pyStrip s)) = some f →
      _to_float (PyVal.vStr s) = floatLitVal f) ∧
    _to_float (PyVal.vStr "$1,234.56") = 1234.56 ∧
    _to_float (PyVal.vStr "") = 0 ∧
    _to_float (PyVal.vStr "N/A") = 0 ∧
    _to_float (PyVal.vStr "none") = 0 := by
  refine ⟨?_, ?_, ?_, ?_, by decide, by decide, by decide⟩
  · intro s h
    rcases h with h | h <;> simp [_to_float, h]
  · intro s h
    simp only [_to_float, pyFloatParse, h, Option.map_none]
    split
    · rfl
    · simp
  · intro s f hcond hlit
    have h1 : ¬ pyStrip s = "" := fun h => hcond (Or.inl h)
    have h2 : ¬ pyLower (pyStrip s) ∈ naMarkers := fun h => hcond (Or.inr h)
    simp [_to_float, pyFloatParse, hlit, h1, h2]
  · have h : _to_float (PyVal.vStr "$1,234.56") =
        floatLitVal ⟨false, ['1', '2', '3', '4'], ['5', '6'], false, []⟩ := rfl
    rw [h]
    have hi : digitsVal ['1', '2', '3', '4'] = 1234 := by decide
    have hf : digitsVal ['5', '6'] = 56 := by decide
    have he : digitsVal ([] : List Char) = 0 := by decide
    simp only [floatLitVal, hi, hf, he, List.length_cons, List.length_nil]
    norm_num

/-- Witness for `to_float_contract` at concrete inputs: the marker `" N/A "`,
the unparseable `"abc"`, and the currency string. -/
theorem to_float_contract_witness :
    (pyLower (pyStrip " N/A ") ∈ naMarkers ∧ _to_float (PyVal.vStr " N/A ") = 0) ∧
    (pyFloatLit (removeChars [',', '$'] (pyStrip "abc")) = none ∧
      _to_float (PyVal.vStr "abc") = 0) ∧
    _to_float (PyVal.vStr "$1,234.56") = 1234.56 :=
  ⟨⟨by decide, to_float_contract.1 " N/A " (Or.inr (by decide))⟩,
   ⟨by decide, to_float_contract.2.1 "abc" (by decide)⟩,
   to_float_contract.2.2.2.1⟩

/-- C8 counterexample: the input `"2024-01-31T00:00:00"` is rejected by all
three date parsers (`date.fromisoformat` raises on a time component, as does
`strptime` with either format), so `_parse_date` returns the caller's
fallback instead of January 31, 2024 as the claim asserts. -/
theorem parse_date_time_component_counterexample :
    _parse_date (some "2024-01-31T00:00:00") (some ⟨2000, 1, 1⟩) = some ⟨2000, 1, 1⟩ ∧
    (⟨2000, 1, 1⟩ : Date) ≠ ⟨2024, 1, 31⟩ := by
  exact ⟨by decide, by decide⟩

/-- C8 amended: `_parse_date` tries ISO `YYYY-MM-DD`, then `%Y-%m-%d`
(which admits unpadded month/day but no time component), then `%m/%d/%Y`,
and returns the caller-supplied fallback when the input is missing, empty,
or rejected by all three; `"2024-01-31"` and `"01/31/2024"` both parse to
January 31, 2024, while `"2024-01-31T00:00:00"` falls back. -/
theorem parse_date_contract :
    (∀ fb, _parse_date none fb = fb) ∧
    (∀ fb, _parse_date (some "") fb = fb) ∧
    (∀ v fb, strTruthy v →
      date_fromisoformat (pyStrip (v.getD "")) = none →
      strptime_Ymd (pyStrip (v.getD "")) = none →
      strptime_mdY (pyStrip (v.getD "")) = none →
      _parse_date v fb = fb) ∧
    _parse_date (some "2024-01-31") none = some ⟨2024, 1, 31⟩ ∧
    _parse_date (some "01/31/2024") none = some ⟨2024, 1, 31⟩ ∧
    (∀ fb, _parse_date (some "2024-01-31T00:00:00") fb = fb) := by
  have h3 : ∀ v fb, strTruthy v →
      date_fromisoformat (pyStrip (v.getD "")) = none →
      strptime_Ymd (pyStrip (v.getD "")) = none →
      strptime_mdY (pyStrip (v.getD "")) = none →
      _parse_date v fb = fb := by
    intro v fb hv hiso hymd hmdy
    simp [_parse_date, hv, hiso, hymd, hmdy, Option.orElse]
  refine ⟨fun fb => rfl, fun fb => rfl, h3, by decide, by decide, ?_⟩
  intro fb
  exact h3 (some "2024-01-31T00:00:00") fb (by decide) (by decide) (by decide) (by decide)

/-- Witness for `parse_date_contract`: a concrete unparseable input falls
back to the supplied date. -/
theorem parse_date_contract_witness :
    strTruthy (some "not a date") = true ∧
    date_fromisoformat (pyStrip ((some "not a date").getD "")) = none ∧
    strptime_Ymd (pyStrip ((some "not a date").getD "")) = none ∧
    strptime_mdY (pyStrip ((some "not a date").getD "")) = none ∧
    _parse_date (some "not a date") (some ⟨1999, 6, 30⟩) = some ⟨1999, 6, 30⟩ :=
  ⟨by decide, by decide, by decide, by decide,
   parse_date_contract.2.2.1 (some "not a date") (some ⟨1999, 6, 30⟩)
     (by decide) (by decide) (by decide) (by decide)⟩

/-- C3 (code bug evidence): a filename containing the keyword
`director_compensation_policy` is dispatched to the director-compensation
handler, because the `director_compensation` substring branch fires first
and the policy branch's own `director_compensation_policy` disjunct is
unreachable; the short keyword `director_comp_policy` does reach the policy
handler, and a `.csv` with no keyword is unrecognized (skipped, not fatal). -/
theorem classify_filename_policy_shadowed :
    classify_filename "acme_director_compensation_policy.csv" = FileCategory.directorComp ∧
    strContains "acme_director_compensation_policy.csv" "director_compensation_policy" = true ∧
    classify_filename "acme_director_comp_policy.csv" = FileCategory.directorPolicy ∧
    classify_filename "acme_random_notes.csv" = FileCategory.unrecognized := by
  exact ⟨by decide, by decide, by decide, by decide⟩

/-! ## Dictionary lemmas for the keyed repository writes -/

/-- After a keyed write, looking up the written key finds the new value. -/
theorem upsert_find_self {β : Type} (d : List (String × β)) (k : String) (v : β) :
    ((Loader.upsertBy Prod.fst d (k, v)).find? (fun e => e.1 = k)).map (·.2) = some v := by
  unfold Loader.upsertBy
  split
  · rename_i hany
    induction d with
    | nil => simp at hany
    | cons a t ih =>
      by_cases h : a.1 = k
      · simp [List.find?, h]
      · simp only [List.map_cons, if_neg h]
        rw [List.find?_cons_of_neg _ (by simpa using h)]
        apply ih
        simpa [List.any_cons, h] using hany
  · rename_i hany
    induction d with
    | nil => simp [List.find?]
    | cons a t ih =>
      have h : ¬ a.1 = k := by
        intro h
        exact hany (by simp [List.any_cons, h])
      rw [List.cons_append, List.find?_cons_of_neg _ (by simpa using h)]
      apply ih
      intro h'
      exact hany (by simp [List.any_cons]; right; simpa using h')

/-- Replacing entries at one key does not disturb lookups of another key. -/
theorem find_map_replace_ne {β : Type} (k k' : String) (v : β) (h : k ≠ k') :
    ∀ d : List (String × β),
      (d.map (fun x => if x.1 = k then (k, v) else x)).find? (fun e => e.1 = k') =
        d.find? (fun e => e.1 = k') := by
  intro d
  induction d with
  | nil => rfl
  | cons a t ih =>
    by_cases ha : a.1 = k
    · have hak' : ¬ (a.1 = k') := fun hx => h (ha ▸ hx)
      simp only [List.map_cons, if_pos ha]
      rw [List.find?_cons_of_neg _ (by simpa using fun hx => h hx),
        List.find?_cons_of_neg _ (by simpa using hak')]
      exact ih
    · simp only [List.map_cons, if_neg ha]
      by_cases hk' : a.1 = k'
      · rw [List.find?_cons_of_pos _ (by simpa using hk'),
          List.find?_cons_of_pos _ (by simpa using hk')]
      · rw [List.find?_cons_of_neg _ (by simpa using hk'),
          List.find?_cons_of_neg _ (by simpa using hk')]
        exact ih

/-- A keyed write leaves lookups of other keys unchanged. -/
theorem upsert_find_other {β : Type} (d : List (String × β)) (k k' : String) (v : β)
    (h : k ≠ k') :
    (Loader.upsertBy Prod.fst d (k, v)).find? (fun e => e.1 = k') =
      d.find? (fun e => e.1 = k') := by
  unfold Loader.upsertBy
  split
  · exact find_map_replace_ne k k' v h d
  · rw [List.find?_append]
    have hnone : List.find? (fun e => e.1 = k') [(k, v)] = none := by
      simp [List.find?, h]
    rw [hnone]
    cases List.find? (fun e => e.1 = k') d <;> rfl

/-! ## Person merge monotonicity (C5) -/

/-- Members of a keyed write are the written pair or old members. -/
theorem mem_upsert {β : Type} {d : List (String × β)} {k : String} {v : β}
    {e : String × β} (he : e ∈ Loader.upsertBy Prod.fst d (k, v)) :
    e = (k, v) ∨ e ∈ d := by
  unfold Loader.upsertBy at he
  split at he
  · rcases List.mem_map.mp he with ⟨x, hx, hmap⟩
    by_cases h : x.1 = k
    · left
      rw [← hmap]
      simp [h]
    · right
      rw [← hmap]
      simpa [h] using hx
  · rcases List.mem_append.mp he with h | h
    · right
      exact h
    · left
      simpa using h

/-- Every stored person sits under their own identifier; true of every state
the loader builds, since `add_person` keys by `person_id`. -/
def peopleWF (lm : Loader.LeagueManager) : Prop :=
  ∀ e ∈ lm.people, (e : String × Loader.Person).2.person_id = e.1

/-- A successful person lookup returns a person whose identifier is the key. -/
theorem get_person_id_eq {lm : Loader.LeagueManager} {slug : String} {p : Loader.Person}
    (hwf : peopleWF lm) (hp : lm.get_person slug = some p) : p.person_id = slug := by
  unfold Loader.LeagueManager.get_person at hp
  cases hfind : lm.people.find? (fun e => e.1 = slug) with
  | none => rw [hfind] at hp; cases hp
  | some e =>
    rw [hfind] at hp
    have hmem := List.mem_of_find?_eq_some hfind
    have hkey : e.1 = slug := by simpa using List.find?_some hfind
    have hval : e.2 = p := by simpa using hp
    rw [← hval, hwf e hmem, hkey]

/-- Field-level monotonicity between an old and a new person record: role
flags stay set, and a populated descriptive field is never emptied. -/
def personUpgrade (p q : Loader.Person) : Prop :=
  (p.is_executive = true → q.is_executive = true) ∧
  (p.is_director = true → q.is_director = true) ∧
  (p.current_title ≠ "" → q.current_title ≠ "") ∧
  (strTruthy p.bio_short = true → q.bio_short = p.bio_short) ∧
  (strTruthy p.linkedin_url = true → q.linkedin_url = p.linkedin_url) ∧
  (strTruthy p.photo_url = true → q.photo_url = p.photo_url) ∧
  (Loader.intTruthy p.years_experience = true → q.years_experience = p.years_experience) ∧
  (strTruthy p.education = true → q.education = p.education) ∧
  (strTruthy p.status = true → strTruthy q.status = true)

/-- `personUpgrade` is reflexive. -/
theorem personUpgrade_refl (p : Loader.Person) : personUpgrade p p :=
  ⟨fun h => h, fun h => h, fun h => h, fun _ => rfl, fun _ => rfl, fun _ => rfl,
   fun _ => rfl, fun _ => rfl, fun h => h⟩

/-- `personUpgrade` composes. -/
theorem personUpgrade_trans {p q r : Loader.Person}
    (h1 : personUpgrade p q) (h2 : personUpgrade q r) : personUpgrade p r := by
  obtain ⟨a1, b1, c1, d1, e1, f1, g1, i1, j1⟩ := h1
  obtain ⟨a2, b2, c2, d2, e2, f2, g2, i2, j2⟩ := h2
  refine ⟨fun h => a2 (a1 h), fun h => b2 (b1 h), fun h => c2 (c1 h), ?_, ?_, ?_, ?_, ?_,
    fun h => j2 (j1 h)⟩
  · intro h
    rw [d2 (by rw [d1 h]; exact h), d1 h]
  · intro h
    rw [e2 (by rw [e1 h]; exact h), e1 h]
  · intro h
    rw [f2 (by rw [f1 h]; exact h), f1 h]
  · intro h
    rw [g2 (by rw [g1 h]; exact h), g1 h]
  · intro h
    rw [i2 (by rw [i1 h]; exact h), i1 h]

/-- One `_ensure_person` call preserves the key invariant. -/
theorem ensure_person_preserves_wf (st : Loader.LoaderState) (args : Loader.PersonArgs)
    (hwf : peopleWF st.league_manager) :
    peopleWF (Loader._ensure_person st args).2.league_manager := by
  simp only [Loader._ensure_person]
  split
  · intro e he
    simp only [Loader.LeagueManager.add_person] at he
    rcases mem_upsert he with h | h
    · rw [h]
    · exact hwf e h
  · intro e he
    simp only [Loader.LeagueManager.add_person] at he
    rcases mem_upsert he with h | h
    · rw [h]
    · exact hwf e h

/-- One `_ensure_person` call on a well-formed state: the person stored at
any identifier is only ever upgraded. -/
theorem ensure_person_step (st : Loader.LoaderState) (args : Loader.PersonArgs)
    (slug : String) (p : Loader.Person)
    (hwf : peopleWF st.league_manager)
    (hp : st.league_manager.get_person slug = some p) :
    ∃ q, (Loader._ensure_person st args).2.league_manager.get_person slug = some q ∧
      personUpgrade p q := by
  have hpid : p.person_id = slug := get_person_id_eq hwf hp
  by_cases hA : (if strTruthy args.person_id then args.person_id.getD ""
      else _slugify args.full_name) = slug
  · simp only [Loader._ensure_person, hA, hp]
    refine ⟨{ p with
      current_title := if args.current_title ≠ "" then args.current_title else p.current_title
      bio_short := if strTruthy args.bio_short && !strTruthy p.bio_short then args.bio_short
                   else p.bio_short
      linkedin_url := if strTruthy args.linkedin_url && !strTruthy p.linkedin_url then
                        args.linkedin_url
                      else p.linkedin_url
      photo_url := if strTruthy args.photo_url && !strTruthy p.photo_url then args.photo_url
                   else p.photo_url
      years_experience := if Loader.intTruthy args.years_experience &&
                             !Loader.intTruthy p.years_experience then
                            args.years_experience
                          else p.years_experience
      education := if strTruthy args.education && !strTruthy p.education then args.education
                   else p.education
      status := if strTruthy args.status then args.status else p.status
      is_executive := p.is_executive || args.is_executive
      is_director := p.is_director || args.is_director }, ?_, ?_⟩
    · unfold Loader.LeagueManager.add_person Loader.LeagueManager.get_person
      simp only [hpid]
      exact upsert_find_self st.league_manager.people slug _
    · refine ⟨?_, ?_, ?_, ?_, ?_, ?_, ?_, ?_, ?_⟩ <;> intro h
      · simp [h]
      · simp [h]
      · simp only
        split
        · assumption
        · exact h
      · simp [h]
      · simp [h]
      · simp [h]
      · simp [h]
      · simp [h]
      · simp only
        split
        · assumption
        · exact h
  · simp only [Loader._ensure_person]
    split
    · refine ⟨p, ?_, personUpgrade_refl p⟩
      unfold Loader.LeagueManager.add_person Loader.LeagueManager.get_person
      simp only
      rw [upsert_find_other _ _ _ _ hA]
      exact hp
    · rename_i person0 hget
      have hp0 : person0.person_id =
          (if strTruthy args.person_id then args.person_id.getD ""
            else _slugify args.full_name) := get_person_id_eq hwf hget
      refine ⟨p, ?_, personUpgrade_refl p⟩
      unfold Loader.LeagueManager.add_person Loader.LeagueManager.get_person
      simp only [hp0]
      rw [upsert_find_other _ _ _ _ hA]
      exact hp

/-- Apply a sequence of `_ensure_person` merge calls. -/
def ensurePersonSeq (st : Loader.LoaderState) : List Loader.PersonArgs → Loader.LoaderState
  | [] => st
  | a :: rest => ensurePersonSeq (Loader._ensure_person st a).2 rest

/-- C5: across any sequence of `_ensure_person` calls on a well-formed
state, the person stored at an identifier only gains role flags (once
`is_executive`/`is_director` is true it stays true) and no populated
descriptive field (title, bio, links, photo, years of experience, education,
status) is ever overwritten by an empty incoming value. -/
theorem ensure_person_monotone : ∀ (ops : List Loader.PersonArgs) (st : Loader.LoaderState)
    (slug : String) (p : Loader.Person),
    peopleWF st.league_manager →
    st.league_manager.get_person slug = some p →
    ∃ q, (ensurePersonSeq st ops).league_manager.get_person slug = some q ∧ personUpgrade p q
  | [], _, _, p, _, hp => ⟨p, hp, personUpgrade_refl p⟩
  | a :: rest, st, slug, p, hwf, hp => by
    obtain ⟨q1, hq1, hu1⟩ := ensure_person_step st a slug p hwf hp
    obtain ⟨q, hq, hu⟩ := ensure_person_monotone rest (Loader._ensure_person st a).2 slug q1
      (ensure_person_preserves_wf st a hwf) hq1
    exact ⟨q, hq, personUpgrade_trans hu1 hu⟩

/-- A concrete executive with populated fields. -/
def c5Person : Loader.Person :=
  { person_id := "jane_doe", full_name := "Jane Doe", current_title := "CEO",
    is_executive := true, bio_short := some "Long-time operator.",
    status := some "Active" }

/-- A state holding `c5Person` under their identifier. -/
def c5State : Loader.LoaderState :=
  { league_manager := { people := [("jane_doe", c5Person)] } }

/-- A merge call for the same person carrying empty descriptive values and a
new director flag. -/
def c5Args : Loader.PersonArgs :=
  { full_name := "Jane Doe", current_title := "", is_director := true,
    bio_short := some "", status := none }

/-- Witness for `ensure_person_monotone`: one merge call with empty incoming
values upgrades, never demotes, the stored person. -/
theorem ensure_person_monotone_witness :
    peopleWF c5State.league_manager ∧
    c5State.league_manager.get_person "jane_doe" = some c5Person ∧
    ∃ q, (ensurePersonSeq c5State [c5Args]).league_manager.get_person "jane_doe" = some q ∧
      personUpgrade c5Person q :=
  ⟨by unfold peopleWF; decide, by decide,
   ensure_person_monotone [c5Args] c5State "jane_doe" c5Person
     (by unfold peopleWF; decide) (by decide)⟩

/-! ## Company merge semantics (C6) -/

/-- A key that is absent yields no stored value. -/
theorem lookup_of_not_hasKey (row : Row) (k : String) (h : row.hasKey k = false) :
    row.lookup k = none := by
  unfold Row.hasKey at h
  unfold Row.lookup
  have hfind : row.entries.find? (fun e => e.1 = k) = none := by
    cases hf : row.entries.find? (fun e => e.1 = k) with
    | none => rfl
    | some e =>
      have hmem := List.mem_of_find?_eq_some hf
      have hkey := List.find?_some hf
      have hany : row.entries.any (fun e => e.1 = k) = true :=
        List.any_eq_true.mpr ⟨e, hmem, hkey⟩
      rw [hany] at h
      cases h
  rw [hfind]
  rfl

/-- `row.get(k, d)` falls back to the default when the key is absent. -/
theorem getD_of_not_hasKey (row : Row) (k : String) (d : Option String)
    (h : row.hasKey k = false) : row.getD k d = d := by
  unfold Row.getD
  rw [lookup_of_not_hasKey row k h]

/-- `row.get(k)` is `None` when the key is absent. -/
theorem get_of_not_hasKey (row : Row) (k : String) (h : row.hasKey k = false) :
    row.get k = none := by
  unfold Row.get
  rw [lookup_of_not_hasKey row k h]
  rfl

/-- The existing company used by the C6 theorems. -/
def c6Company : Loader.Company :=
  { company_id := "acme", company_name := some "Acme Industries", ticker := some "ACM",
    fiscal_year_end := ⟨2023, 12, 31⟩, source_url := some "https://acme.example/proxy",
    notes := some "hand-checked", sector := some "Industrials",
    market_cap_usd := 1000, revenue_usd := 500, cap_budget_usd := 50,
    founded_year := 1950 }

/-- A state already holding `c6Company`. -/
def c6State : Loader.LoaderState :=
  { league_manager := { companies := [("acme", c6Company)] } }

/-- A manifest row that carries the ticker key with an empty value. -/
def c6EmptyTickerRow : Row := ⟨[("ticker", some "")]⟩

/-- C6 counterexample: a manifest row whose `ticker` key is present but
empty supplies no non-empty value, yet the merge overwrites the known
ticker `"ACM"` with the empty string, because string fields merge with
`row.get(key, old)` and only an absent key keeps the old value. -/
theorem ensure_company_overwrite_counterexample :
    c6Company.ticker = some "ACM" ∧
    strTruthy (c6EmptyTickerRow.get "ticker") = false ∧
    (Loader._ensure_company c6State "acme" c6EmptyTickerRow "2024").1.ticker = some "" := by
  exact ⟨rfl, by decide, by decide⟩

/-- C6 amended: when merging a manifest row into an existing company, the
numeric fields (market cap, revenue, cap budget, founded year) keep their
prior values whenever the incoming value coerces to zero or is absent, and
the string fields (name, ticker, source URL, notes, sector) keep their prior
values when the key is absent from the row — but not when it is present with
an empty value. -/
theorem ensure_company_preserves_known (st : Loader.LoaderState) (slug year : String)
    (row : Row) (c : Loader.Company)
    (hc : st.league_manager.get_company slug = some c) :
    (Loader._ensure_company st slug row year).1.company_id = c.company_id ∧
    (row.hasKey "company_name" = false →
      (Loader._ensure_company st slug row year).1.company_name = c.company_name) ∧
    (row.hasKey "ticker" = false →
      (Loader._ensure_company st slug row year).1.ticker = c.ticker) ∧
    (row.hasKey "source_url" = false →
      (Loader._ensure_company st slug row year).1.source_url = c.source_url) ∧
    (row.hasKey "notes" = false →
      (Loader._ensure_company st slug row year).1.notes = c.notes) ∧
    (row.hasKey "sector" = false →
      (Loader._ensure_company st slug row year).1.sector = c.sector) ∧
    (_to_float (PyVal.ofOpt (row.get "market_cap_usd")) = 0 →
      (Loader._ensure_company st slug row year).1.market_cap_usd = c.market_cap_usd) ∧
    (_to_float (PyVal.ofOpt (row.get "revenue_usd")) = 0 →
      (Loader._ensure_company st slug row year).1.revenue_usd = c.revenue_usd) ∧
    (_to_float (PyVal.ofOpt (row.get "cap_budget_usd")) = 0 →
      (Loader._ensure_company st slug row year).1.cap_budget_usd = c.cap_budget_usd) ∧
    (_to_int (PyVal.ofOpt (row.get "founded_year")) = 0 →
      (Loader._ensure_company st slug row year).1.founded_year = c.founded_year) := by
  simp only [Loader._ensure_company, hc]
  refine ⟨trivial, ?_, ?_, ?_, ?_, ?_, ?_, ?_, ?_, ?_⟩ <;> intro h
  · simp [getD_of_not_hasKey row _ _ h]
  · simp [getD_of_not_hasKey row _ _ h]
  · simp [getD_of_not_hasKey row _ _ h]
  · simp [getD_of_not_hasKey row _ _ h]
  · simp [getD_of_not_hasKey row _ _ h]
  · simp [Loader.pyOrQ, h]
  · simp [Loader.pyOrQ, h]
  · simp [Loader.pyOrQ, h]
  · simp [Loader.pyOrInt, h]

/-- A manifest row silent on every merged field. -/
def c6SilentRow : Row := ⟨[("fiscal_year_end", some "2024-12-31")]⟩

/-- Witness for `ensure_company_preserves_known`: a row silent on every
field leaves all of them intact. -/
theorem ensure_company_preserves_known_witness :
    c6State.league_manager.get_company "acme" = some c6Company ∧
    c6SilentRow.hasKey "ticker" = false ∧
    _to_float (PyVal.ofOpt (c6SilentRow.get "market_cap_usd")) = 0 ∧
    (Loader._ensure_company c6State "acme" c6SilentRow "2024").1.ticker = c6Company.ticker ∧
    (Loader._ensure_company c6State "acme" c6SilentRow "2024").1.market_cap_usd =
      c6Company.market_cap_usd := by
  have h := ensure_company_preserves_known c6State "acme" "2024" c6SilentRow c6Company
    (by decide)
  exact ⟨by decide, by decide, by decide, h.2.2.1 (by decide), h.2.2.2.2.2.2.1 (by decide)⟩

/-! ## Orchestrator failure containment (C4) -/

/-- A store whose discovery succeeds but whose blob listing for company
`alpha`, fiscal year 2024, raises. -/
def c4Store : Loader.BlobStore :=
  { list_blobs := fun pfx =>
      if pfx = "companies/" then
        Except.ok ["companies/alpha/2024/alpha_notes.csv", "companies/beta/2024/beta_notes.csv"]
      else if pfx = "companies/alpha/" then
        Except.ok ["companies/alpha/2024/alpha_notes.csv"]
      else if pfx = "companies/beta/" then
        Except.ok ["companies/beta/2024/beta_notes.csv"]
      else if pfx = "companies/alpha/2024/" then Except.error "boom"
      else if pfx = "companies/beta/2024/" then
        Except.ok ["companies/beta/2024/beta_notes.csv"]
      else Except.ok []
    read_rows := fun _ => Except.ok [⟨[("note", some "x")]⟩] }

/-- C4 counterexample: discovery succeeds (two companies found), but the
exception raised while importing `alpha`'s year makes the whole pass return
the error result — `beta` is never processed and no success result is
produced, contradicting the claimed per-company containment. -/
theorem load_all_per_company_exception_counterexample :
    Loader.list_company_folders c4Store = Except.ok ["alpha", "beta"] ∧
    Loader.load_all_company_data c4Store none false = Loader.LoadResult.error "boom" [] := by
  exact ⟨rfl, rfl⟩

/-- A listing success everywhere lets `load_company_year` return normally,
whatever the downloads do. -/
theorem load_company_year_ok (store : Loader.BlobStore)
    (hok : ∀ pfx, ∃ ns, store.list_blobs pfx = Except.ok ns)
    (st : Loader.LoaderState) (slug year : String) :
    ∃ st', Loader.load_company_year store st slug year = Except.ok st' := by
  obtain ⟨ns, hns⟩ := hok s!"companies/{slug}/{year}/"
  unfold Loader.load_company_year
  rw [hns]
  by_cases h : ns.isEmpty
  · simp only [h]
    exact ⟨_, rfl⟩
  · simp only [h]
    exact ⟨_, rfl⟩

/-- The years loop returns normally when every listing succeeds. -/
theorem loadYearsLoop_ok (store : Loader.BlobStore)
    (hok : ∀ pfx, ∃ ns, store.list_blobs pfx = Except.ok ns) (slug : String) :
    ∀ (years : List String) (st : Loader.LoaderState),
      ∃ st', Loader.loadYearsLoop store slug st years = Except.ok st'
  | [], st => ⟨st, rfl⟩
  | y :: ys, st => by
    obtain ⟨st1, h1⟩ := load_company_year_ok store hok st slug y
    obtain ⟨st2, h2⟩ := loadYearsLoop_ok store hok slug ys st1
    exact ⟨st2, by simp only [Loader.loadYearsLoop, h1, h2]⟩

/-- The companies loop returns normally when every listing succeeds. -/
theorem loadCompaniesLoop_ok (store : Loader.BlobStore)
    (hok : ∀ pfx, ∃ ns, store.list_blobs pfx = Except.ok ns)
    (sy : Option String) (lay : Bool) :
    ∀ (slugs : List String) (st : Loader.LoaderState),
      ∃ st', Loader.loadCompaniesLoop store sy lay st slugs = Except.ok st'
  | [], st => ⟨st, rfl⟩
  | slug :: rest, st => by
    obtain ⟨ns, hns⟩ := hok s!"companies/{slug}/"
    have hyears : ∃ ys, Loader.list_years_for_company store slug = Except.ok ys := by
      unfold Loader.list_years_for_company
      rw [hns]
      exact ⟨_, rfl⟩
    obtain ⟨ys, hys⟩ := hyears
    obtain ⟨st1, h1⟩ := loadYearsLoop_ok store hok slug
      (if strTruthy sy && ys.contains (sy.getD "") then [sy.getD ""]
       else if lay then ys
       else if !ys.isEmpty then [Loader.maxString ys]
       else []) st
    obtain ⟨st2, h2⟩ := loadCompaniesLoop_ok store hok sy lay rest st1
    refine ⟨st2, ?_⟩
    simp only [Loader.loadCompaniesLoop, hys, h1, h2]

/-- C4 amended: the single `try`/`except` wraps discovery and the
per-company imports alike.  Any raised exception — during discovery or
while loading one company's year — makes the whole pass return the error
result carrying the warnings collected before the failure; and when every
blob listing succeeds the pass returns a success result even if every
download fails (download failures are contained as warnings). -/
theorem load_all_exception_policy (store : Loader.BlobStore) (sy : Option String)
    (lay : Bool) :
    (∀ m, Loader.list_company_folders store = Except.error m →
      Loader.load_all_company_data store sy lay = Loader.LoadResult.error m []) ∧
    (∀ slugs m stf, Loader.list_company_folders store = Except.ok slugs →
      Loader.loadCompaniesLoop store sy lay {} slugs = Except.error (m, stf) →
      Loader.load_all_company_data store sy lay =
        Loader.LoadResult.error m stf.load_warnings) ∧
    ((∀ pfx, ∃ ns, store.list_blobs pfx = Except.ok ns) →
      ∀ slugs, Loader.list_company_folders store = Except.ok slugs →
      ∃ stf, Loader.loadCompaniesLoop store sy lay {} slugs = Except.ok stf ∧
        Loader.load_all_company_data store sy lay = Loader.LoadResult.success
          (stf.league_manager.companies.map (·.1))
          stf.league_manager.companies.length
          stf.league_manager.people.length
          stf.league_manager.executive_comp.length
          (stf.league_manager.get_available_years.map (fun d => toString d.year))
          stf.load_warnings
          stf.league_manager) := by
  refine ⟨?_, ?_, ?_⟩
  · intro m hm
    simp only [Loader.load_all_company_data, hm]
  · intro slugs m stf hs hloop
    simp only [Loader.load_all_company_data, hs, hloop]
  · intro hok slugs hs
    obtain ⟨stf, hloop⟩ := loadCompaniesLoop_ok store hok sy lay slugs {}
    refine ⟨stf, hloop, ?_⟩
    simp only [Loader.load_all_company_data, hs, hloop]

/-- A store whose listings always succeed but whose downloads always fail. -/
def c4OkStore : Loader.BlobStore :=
  { list_blobs := fun pfx =>
      if pfx = "companies/" then
        Except.ok ["companies/acme/2024/acme_executive_compensation.csv"]
      else if pfx = "companies/acme/" then
        Except.ok ["companies/acme/2024/acme_executive_compensation.csv"]
      else if pfx = "companies/acme/2024/" then
        Except.ok ["companies/acme/2024/acme_executive_compensation.csv"]
      else Except.ok []
    read_rows := fun _ => Except.error "connection reset" }

/-- Every listing of `c4OkStore` succeeds. -/
theorem c4OkStore_listings_ok : ∀ pfx, ∃ ns, c4OkStore.list_blobs pfx = Except.ok ns := by
  intro pfx
  show (∃ ns, (if pfx = "companies/" then _ else _) = Except.ok ns)
  split
  · exact ⟨_, rfl⟩
  · split
    · exact ⟨_, rfl⟩
    · split
      · exact ⟨_, rfl⟩
      · exact ⟨_, rfl⟩

/-- Witness for `load_all_exception_policy`: with all listings succeeding
and every download failing, the pass still reports success. -/
theorem load_all_exception_policy_witness :
    (∀ pfx, ∃ ns, c4OkStore.list_blobs pfx = Except.ok ns) ∧
    Loader.list_company_folders c4OkStore = Except.ok ["acme"] ∧
    ∃ stf, Loader.loadCompaniesLoop c4OkStore none false {} ["acme"] = Except.ok stf ∧
      Loader.load_all_company_data c4OkStore none false = Loader.LoadResult.success
        (stf.league_manager.companies.map (·.1))
        stf.league_manager.companies.length
        stf.league_manager.people.length
        stf.league_manager.executive_comp.length
        (stf.league_manager.get_available_years.map (fun d => toString d.year))
        stf.load_warnings
        stf.league_manager :=
  ⟨c4OkStore_listings_ok, rfl,
   (load_all_exception_policy c4OkStore none false).2.2 c4OkStore_listings_ok ["acme"] rfl⟩

/-! ## Upsert algebra (C2)

Replaying the same keyed-write sequence is the identity: after the first
pass every key is present and holds its final value, so the second pass only
re-replaces records with themselves. -/

section UpsertAlgebra

variable {α κ : Type} [DecidableEq κ] (key : α → κ)

/-- Members of a keyed write: the new record, or an old one at another key. -/
theorem mem_upsertBy {xs : List α} {r a : α}
    (ha : a ∈ Loader.upsertBy key xs r) : a = r ∨ (a ∈ xs ∧ key a ≠ key r) := by
  unfold Loader.upsertBy at ha
  split at ha
  · rcases List.mem_map.mp ha with ⟨x, hx, hmap⟩
    by_cases h : key x = key r
    · left
      rw [← hmap]
      simp [h]
    · right
      rw [← hmap]
      simp only [if_neg h]
      exact ⟨hx, h⟩
  · rcases List.mem_append.mp ha with h | h
    · rename_i hany
      right
      refine ⟨h, fun hk => ?_⟩
      exact hany (List.any_eq_true.mpr ⟨a, h, decide_eq_true hk⟩)
    · left
      simpa using h

/-- The written key is present afterwards. -/
theorem key_mem_upsertBy_self (xs : List α) (r : α) :
    key r ∈ (Loader.upsertBy key xs r).map key := by
  unfold Loader.upsertBy
  split
  · rename_i hany
    rcases List.any_eq_true.mp hany with ⟨x, hx, hkx⟩
    refine List.mem_map.mpr ⟨if key x = key r then r else x, List.mem_map_of_mem _ hx, ?_⟩
    rw [if_pos (of_decide_eq_true hkx)]
  · simp

/-- Old keys survive a keyed write. -/
theorem key_mem_upsertBy_mono {k : κ} {xs : List α} (s : α) (h : k ∈ xs.map key) :
    k ∈ (Loader.upsertBy key xs s).map key := by
  unfold Loader.upsertBy
  rcases List.mem_map.mp h with ⟨x, hx, hkx⟩
  split
  · refine List.mem_map.mpr ⟨if key x = key s then s else x, List.mem_map_of_mem _ hx, ?_⟩
    by_cases hc : key x = key s
    · rw [if_pos hc, ← hc]
      exact hkx
    · rw [if_neg hc]
      exact hkx
  · exact List.mem_map.mpr ⟨x, List.mem_append_left _ hx, hkx⟩

/-- Present keys survive a whole write sequence. -/
theorem key_mem_upsertList_mono {k : κ} :
    ∀ (L ys : List α), k ∈ ys.map key → k ∈ (Loader.upsertListBy key ys L).map key
  | [], _, h => h
  | s :: L', ys, h =>
    key_mem_upsertList_mono L' (Loader.upsertBy key ys s) (key_mem_upsertBy_mono key s h)

/-- Every key written during a sequence is present at its end. -/
theorem key_mem_upsertList {L : List α} {r : α} (hr : r ∈ L) :
    ∀ xs : List α, key r ∈ (Loader.upsertListBy key xs L).map key := by
  induction L with
  | nil => cases hr
  | cons s L' ih =>
    intro xs
    rcases List.mem_cons.mp hr with h | h
    · subst h
      exact key_mem_upsertList_mono key L' (Loader.upsertBy key xs r)
        (key_mem_upsertBy_self key xs r)
    · exact ih h (Loader.upsertBy key xs s)

/-- The last record of a sequence carrying a given key. -/
def lastByKey (L : List α) (k : κ) : Option α :=
  L.reverse.find? (fun x => key x = k)

/-- Replace a record by the final record of the sequence at its key. -/
def replFinal (L : List α) (a : α) : α :=
  (lastByKey key L (key a)).getD a

/-- `replFinal` absorbs one leading replacement. -/
theorem replFinal_cons (r : α) (L' : List α) (x : α) :
    replFinal key L' (if key x = key r then r else x) = replFinal key (r :: L') x := by
  unfold replFinal lastByKey
  have hrev : (r :: L').reverse = L'.reverse ++ [r] := by simp
  rw [hrev, List.find?_append]
  by_cases h : key x = key r
  · rw [if_pos h, h]
    have hfind : List.find? (fun y => key y = key r) [r] = some r := by
      simp [List.find?]
    rw [hfind]
    cases List.find? (fun y => decide (key y = key r)) L'.reverse <;> rfl
  · rw [if_neg h]
    have hfind : List.find? (fun y => key y = key x) [r] = none := by
      have hd : decide (key r = key x) = false := decide_eq_false (fun hk => h hk.symm)
      simp [List.find?, hd]
    rw [hfind]
    cases List.find? (fun y => decide (key y = key x)) L'.reverse <;> rfl

/-- Keys of a list survive replacing all records at one key. -/
theorem key_mem_map_replace {k : κ} {ys : List α} (r : α) (h : k ∈ ys.map key) :
    k ∈ (ys.map (fun x => if key x = key r then r else x)).map key := by
  rcases List.mem_map.mp h with ⟨x, hx, hkx⟩
  refine List.mem_map.mpr ⟨if key x = key r then r else x, List.mem_map_of_mem _ hx, ?_⟩
  by_cases hc : key x = key r
  · rw [if_pos hc, ← hc]
    exact hkx
  · rw [if_neg hc]
    exact hkx

/-- Replaying a write sequence over a list already carrying all its keys is
a pointwise final-value replacement. -/
theorem upsertList_of_keys_present :
    ∀ (L ys : List α), (∀ r ∈ L, key r ∈ ys.map key) →
      Loader.upsertListBy key ys L = ys.map (replFinal key L) := by
  intro L
  induction L with
  | nil =>
    intro ys _
    have hid : ∀ a ∈ ys, replFinal key [] a = a := by
      intro a _
      unfold replFinal lastByKey
      rfl
    rw [show Loader.upsertListBy key ys [] = ys from rfl, List.map_congr_left hid,
      List.map_id']
  | cons r L' ih =>
    intro ys hpres
    have hany : ys.any (fun x => key x = key r) = true := by
      rcases List.mem_map.mp (hpres r (List.mem_cons_self r L')) with ⟨x, hx, hkx⟩
      exact List.any_eq_true.mpr ⟨x, hx, decide_eq_true hkx⟩
    show Loader.upsertListBy key (Loader.upsertBy key ys r) L' = _
    have hup : Loader.upsertBy key ys r =
        ys.map (fun x => if key x = key r then r else x) := by
      unfold Loader.upsertBy
      rw [if_pos hany]
    rw [hup, ih (ys.map (fun x => if key x = key r then r else x))
      (fun s hs => key_mem_map_replace key r (hpres s (List.mem_cons_of_mem r hs))),
      List.map_map]
    apply List.map_congr_left
    intro x _
    exact replFinal_cons key r L' x

/-- After a write sequence, a record whose key the sequence wrote holds the
final written value. -/
theorem upsertList_final_value :
    ∀ (L xs : List α) (a : α), a ∈ Loader.upsertListBy key xs L →
      ∀ r', lastByKey key L (key a) = some r' → a = r' := by
  intro L
  induction L using List.reverseRecOn with
  | nil =>
    intro xs a _ r' hr'
    unfold lastByKey at hr'
    cases hr'
  | append_singleton L' r ih =>
    intro xs a ha r' hr'
    have hfold : Loader.upsertListBy key xs (L' ++ [r]) =
        Loader.upsertBy key (Loader.upsertListBy key xs L') r := by
      unfold Loader.upsertListBy
      rw [List.foldl_append]
      rfl
    rw [hfold] at ha
    unfold lastByKey at hr'
    rw [List.reverse_append, List.reverse_singleton, List.singleton_append,
      List.find?_cons] at hr'
    rcases mem_upsertBy key ha with h | ⟨hmem, hne⟩
    · subst h
      rw [decide_eq_true rfl] at hr'
      cases hr'
      rfl
    · rw [decide_eq_false (fun hk => hne hk.symm)] at hr'
      exact ih xs a hmem r' hr'

/-- Replaying the same write sequence is the identity. -/
theorem upsertList_idem (L xs : List α) :
    Loader.upsertListBy key (Loader.upsertListBy key xs L) L =
      Loader.upsertListBy key xs L := by
  rw [upsertList_of_keys_present key L (Loader.upsertListBy key xs L)
    (fun r hr => key_mem_upsertList key hr xs)]
  have hid : ∀ a ∈ Loader.upsertListBy key xs L, replFinal key L a = a := by
    intro a ha
    unfold replFinal
    cases hlast : lastByKey key L (key a) with
    | none => rfl
    | some r' =>
      rw [Option.getD_some]
      exact (upsertList_final_value key L xs a ha r' hlast).symm
  rw [List.map_congr_left hid, List.map_id']

end UpsertAlgebra

/-! ## Pure emission functions (C2)

The records an import pass submits are deterministic functions of the store
contents, the company identifier, the year, and the fiscal-year-end carried
into each blob; these definitions name those functions so the double-import
theorem can compare two runs. -/

namespace Loader

/-- The executive records one classified blob submits. -/
def blobExecRecords (store : BlobStore) (cid year b : String) : List ExecutiveCompensation :=
  match classify_filename (blobFilename b) with
  | FileCategory.execComp => execRecords cid year (blobRows store b)
  | _ => []

/-- The director records one classified blob submits. -/
def blobDirRecords (store : BlobStore) (cid : String) (fye : Date) (b : String) :
    List DirectorCompensation :=
  match classify_filename (blobFilename b) with
  | FileCategory.directorComp => dirRecords cid fye (blobRows store b)
  | _ => []

/-- How one classified blob evolves the company's fiscal-year-end. -/
def blobFye (store : BlobStore) (fye : Date) (b : String) : Date :=
  match classify_filename (blobFilename b) with
  | FileCategory.execComp => execFyeRows fye (blobRows store b)
  | _ => fye

/-- The number of grant records one blob appends. -/
def blobGrantCount (store : BlobStore) (b : String) : Nat :=
  match classify_filename (blobFilename b) with
  | FileCategory.equityGrants => ((blobRows store b).filter isNamedExec).length
  | _ => 0

/-- The number of ownership records one blob appends. -/
def blobOwnCount (store : BlobStore) (b : String) : Nat :=
  match classify_filename (blobFilename b) with
  | FileCategory.ownership => ((blobRows store b).filter isNamedOwn).length
  | _ => 0

/-- The number of director profiles one blob appends. -/
def blobProfCount (store : BlobStore) (b : String) : Nat :=
  match classify_filename (blobFilename b) with
  | FileCategory.directorProfiles => ((blobRows store b).filter isNamedDir).length
  | _ => 0

/-- Fiscal-year-end evolution across a blob list. -/
def foldFye (store : BlobStore) (fye : Date) : List String → Date
  | [] => fye
  | b :: bs => foldFye store (blobFye store fye b) bs

/-- The executive records a blob list submits, in order. -/
def foldExecRecords (store : BlobStore) (cid year : String) :
    List String → List ExecutiveCompensation
  | [] => []
  | b :: bs => blobExecRecords store cid year b ++ foldExecRecords store cid year bs

/-- The director records a blob list submits, in order, tracking the
fiscal-year-end the exec importer may rewrite along the way. -/
def foldDirRecords (store : BlobStore) (cid : String) (fye : Date) :
    List String → List DirectorCompensation
  | [] => []
  | b :: bs =>
    blobDirRecords store cid fye b ++ foldDirRecords store cid (blobFye store fye b) bs

/-- Grants appended across a blob list. -/
def foldGrantCount (store : BlobStore) : List String → Nat
  | [] => 0
  | b :: bs => blobGrantCount store b + foldGrantCount store bs

/-- Ownership records appended across a blob list. -/
def foldOwnCount (store : BlobStore) : List String → Nat
  | [] => 0
  | b :: bs => blobOwnCount store b + foldOwnCount store bs

/-- Director profiles appended across a blob list. -/
def foldProfCount (store : BlobStore) : List String → Nat
  | [] => 0
  | b :: bs => blobProfCount store b + foldProfCount store bs

/-- The manifest row `_import_manifest` returns, as a pure store function. -/
def manifestRowPure (store : BlobStore) (b : String) : Row :=
  let manifest := (blobRows store b).headD ⟨[]⟩
  let manifest := manifest.setdefault "company_name" (manifest.get "name")
  let manifest := manifest.setdefault "ticker" (manifest.get "symbol")
  let manifest := manifest.setdefault "fiscal_year_end" (manifest.get "year_end")
  let manifest := manifest.setdefault "source_url" (manifest.get "source_url")
  manifest

/-- The manifest row `load_company_year` derives from a blob listing. -/
def manifestOf (store : BlobStore) (ns : List String) : Row :=
  match ns.find? (fun b => strEndsWith (blobFilename b) "_manifest.csv") with
  | some b => manifestRowPure store b
  | none => ⟨[]⟩

/-- The fiscal-year-end `_ensure_company` settles on. -/
def ensuredFye (row : Row) (year : String) : Date :=
  (_parse_date (row.get "fiscal_year_end") (some ⟨strToNat year, 12, 31⟩)).getD
    ⟨strToNat year, 12, 31⟩

end Loader

/-- Every stored company sits under its own identifier; true of every state
the loader builds, since `add_company` keys by `company_id`. -/
def companiesWF (lm : Loader.LeagueManager) : Prop :=
  ∀ e ∈ lm.companies, (e : String × Loader.Company).2.company_id = e.1

/-- A successful company lookup returns a company whose identifier is the
key. -/
theorem get_company_id_eq {lm : Loader.LeagueManager} {slug : String} {c : Loader.Company}
    (hwf : companiesWF lm) (hc : lm.get_company slug = some c) : c.company_id = slug := by
  unfold Loader.LeagueManager.get_company at hc
  cases hfind : lm.companies.find? (fun e => e.1 = slug) with
  | none => rw [hfind] at hc; cases hc
  | some e =>
    rw [hfind] at hc
    have hmem := List.mem_of_find?_eq_some hfind
    have hkey : e.1 = slug := by simpa using List.find?_some hfind
    have hval : e.2 = c := by simpa using hc
    rw [← hval, hwf e hmem, hkey]

/-- `_parse_date` with a non-`None` fallback always yields a date. -/
theorem parse_date_some (v : Option String) (fb : Date) :
    ∃ d, _parse_date v (some fb) = some d := by
  unfold _parse_date
  by_cases hv : strTruthy v
  · simp only [hv]
    cases h1 : date_fromisoformat (pyStrip (v.getD "")) with
    | some d => exact ⟨d, by simp [Option.orElse, h1]⟩
    | none =>
      cases h2 : strptime_Ymd (pyStrip (v.getD "")) with
      | some d => exact ⟨d, by simp [Option.orElse, h1, h2]⟩
      | none =>
        cases h3 : strptime_mdY (pyStrip (v.getD "")) with
        | some d => exact ⟨d, by simp [Option.orElse, h1, h2, h3]⟩
        | none => exact ⟨fb, by simp [Option.orElse, h1, h2, h3]⟩
  · simp only [hv]
    exact ⟨fb, rfl⟩

/-! ## State-effect lemmas for the import pipeline (C2) -/

/-- `_read_csv_blob` yields the pure rows and touches only the warnings. -/
theorem read_csv_blob_spec (store : Loader.BlobStore) (st : Loader.LoaderState) (b : String) :
    (Loader._read_csv_blob store st b).1 = Loader.blobRows store b ∧
    (Loader._read_csv_blob store st b).2.league_manager = st.league_manager := by
  unfold Loader._read_csv_blob Loader.blobRows
  constructor
  · split
    · rfl
    · split <;> rfl
  · split
    · rfl
    · split <;> rfl

/-- On a well-formed state, the person `_ensure_person` returns carries the
derived identifier. -/
theorem ensure_person_id (st : Loader.LoaderState) (args : Loader.PersonArgs)
    (hwf : peopleWF st.league_manager) :
    (Loader._ensure_person st args).1.person_id =
      (if strTruthy args.person_id then args.person_id.getD ""
       else _slugify args.full_name) := by
  simp only [Loader._ensure_person]
  split
  · rfl
  · rename_i person0 hget
    have h := get_person_id_eq hwf hget
    exact h

/-- `_ensure_person` touches only the people table. -/
theorem ensure_person_lm_fields (st : Loader.LoaderState) (args : Loader.PersonArgs) :
    (Loader._ensure_person st args).2.league_manager.executive_comp =
      st.league_manager.executive_comp ∧
    (Loader._ensure_person st args).2.league_manager.director_comp =
      st.league_manager.director_comp ∧
    (Loader._ensure_person st args).2.league_manager.equity_grants =
      st.league_manager.equity_grants ∧
    (Loader._ensure_person st args).2.league_manager.beneficial_ownership =
      st.league_manager.beneficial_ownership ∧
    (Loader._ensure_person st args).2.league_manager.director_profiles =
      st.league_manager.director_profiles ∧
    (Loader._ensure_person st args).2.league_manager.director_policies =
      st.league_manager.director_policies ∧
    (Loader._ensure_person st args).2.league_manager.companies =
      st.league_manager.companies := by
  simp only [Loader._ensure_person]
  split <;> exact ⟨rfl, rfl, rfl, rfl, rfl, rfl, rfl⟩

/-- `_ensure_company` on a well-formed state: the returned company carries
the slug and the manifest-determined fiscal-year-end, and only the company
table changes. -/
theorem ensure_company_spec (st : Loader.LoaderState) (slug year : String) (row : Row)
    (hwf : companiesWF st.league_manager) :
    (Loader._ensure_company st slug row year).1.company_id = slug ∧
    (Loader._ensure_company st slug row year).1.fiscal_year_end =
      Loader.ensuredFye row year ∧
    (Loader._ensure_company st slug row year).2.league_manager.executive_comp =
      st.league_manager.executive_comp ∧
    (Loader._ensure_company st slug row year).2.league_manager.director_comp =
      st.league_manager.director_comp ∧
    (Loader._ensure_company st slug row year).2.league_manager.equity_grants =
      st.league_manager.equity_grants ∧
    (Loader._ensure_company st slug row year).2.league_manager.beneficial_ownership =
      st.league_manager.beneficial_ownership ∧
    (Loader._ensure_company st slug row year).2.league_manager.director_profiles =
      st.league_manager.director_profiles ∧
    (Loader._ensure_company st slug row year).2.league_manager.people =
      st.league_manager.people := by
  simp only [Loader._ensure_company]
  split
  · exact ⟨rfl, rfl, rfl, rfl, rfl, rfl, rfl, rfl⟩
  · rename_i company0 hget
    obtain ⟨d, hd⟩ := parse_date_some (row.get "fiscal_year_end") ⟨strToNat year, 12, 31⟩
    have hid := get_company_id_eq hwf hget
    refine ⟨hid, ?_, rfl, rfl, rfl, rfl, rfl, rfl⟩
    show (_parse_date (row.get "fiscal_year_end")
      (some ⟨strToNat year, 12, 31⟩)).getD company0.fiscal_year_end = Loader.ensuredFye row year
    unfold Loader.ensuredFye
    rw [hd]
    rfl

/-- `_ensure_company` preserves the company-key invariant. -/
theorem ensure_company_preserves_wf (st : Loader.LoaderState) (slug year : String) (row : Row) :
    companiesWF st.league_manager →
    companiesWF (Loader._ensure_company st slug row year).2.league_manager := by
  intro hwf
  simp only [Loader._ensure_company]
  split
  · intro e he
    simp only [Loader.LeagueManager.add_company] at he
    rcases mem_upsert he with h | h
    · rw [h]
    · exact hwf e h
  · intro e he
    simp only [Loader.LeagueManager.add_company] at he
    rcases mem_upsert he with h | h
    · rw [h]
    · exact hwf e h

/-- The provenance loop touches only the manifest table. -/
theorem manifestEntriesLoop_lm (slug : String) :
    ∀ (rows : List Row) (st : Loader.LoaderState),
      (Loader.manifestEntriesLoop slug st rows).league_manager.executive_comp =
        st.league_manager.executive_comp ∧
      (Loader.manifestEntriesLoop slug st rows).league_manager.director_comp =
        st.league_manager.director_comp ∧
      (Loader.manifestEntriesLoop slug st rows).league_manager.equity_grants =
        st.league_manager.equity_grants ∧
      (Loader.manifestEntriesLoop slug st rows).league_manager.beneficial_ownership =
        st.league_manager.beneficial_ownership ∧
      (Loader.manifestEntriesLoop slug st rows).league_manager.director_profiles =
        st.league_manager.director_profiles ∧
      (Loader.manifestEntriesLoop slug st rows).league_manager.people =
        st.league_manager.people ∧
      (Loader.manifestEntriesLoop slug st rows).league_manager.companies =
        st.league_manager.companies
  | [], st => ⟨rfl, rfl, rfl, rfl, rfl, rfl, rfl⟩
  | row :: rest, st => manifestEntriesLoop_lm slug rest _

/-- `_import_manifest` returns the pure manifest row and touches only the
manifest table and warnings. -/
theorem import_manifest_spec (store : Loader.BlobStore) (st : Loader.LoaderState)
    (slug year b : String) :
    (Loader._import_manifest store st slug year b).1 = Loader.manifestRowPure store b ∧
    (Loader._import_manifest store st slug year b).2.league_manager.executive_comp =
      st.league_manager.executive_comp ∧
    (Loader._import_manifest store st slug year b).2.league_manager.director_comp =
      st.league_manager.director_comp ∧
    (Loader._import_manifest store st slug year b).2.league_manager.equity_grants =
      st.league_manager.equity_grants ∧
    (Loader._import_manifest store st slug year b).2.league_manager.beneficial_ownership =
      st.league_manager.beneficial_ownership ∧
    (Loader._import_manifest store st slug year b).2.league_manager.director_profiles =
      st.league_manager.director_profiles ∧
    (Loader._import_manifest store st slug year b).2.league_manager.people =
      st.league_manager.people ∧
    (Loader._import_manifest store st slug year b).2.league_manager.companies =
      st.league_manager.companies := by
  obtain ⟨hrows, hlm⟩ := read_csv_blob_spec store st b
  unfold Loader._import_manifest Loader.manifestRowPure
  rw [show Loader._read_csv_blob store st b =
    ((Loader._read_csv_blob store st b).1, (Loader._read_csv_blob store st b).2) from rfl]
  simp only [hrows, hlm]
  obtain ⟨h1, h2, h3, h4, h5, h6, h7⟩ :=
    manifestEntriesLoop_lm slug (Loader.blobRows store b) (Loader._read_csv_blob store st b).2
  rw [hlm] at h1 h2 h3 h4 h5 h6 h7
  refine ⟨by first | rfl | trivial, h1, h2, h3, h4, h5, h6, h7⟩

/-- The company enrichment of one executive row never touches the company
identifier and rewrites the fiscal-year-end exactly when the row parses. -/
theorem execRowCompanyUpdate_spec (row : Row) (c : Loader.Company) :
    (Loader.execRowCompanyUpdate row c).company_id = c.company_id ∧
    (Loader.execRowCompanyUpdate row c).fiscal_year_end =
      (_parse_date (row.get "fiscal_year_end") none).getD c.fiscal_year_end := by
  unfold Loader.execRowCompanyUpdate
  constructor
  · split <;> (repeat' split) <;> rfl
  · (repeat' split) <;> simp_all

/-- Overriding the person identifier with its own value is the identity. -/
theorem execRecord_override (r : Loader.ExecutiveCompensation) (v : String)
    (h : v = r.person_id) :
    ({ r with person_id := v } : Loader.ExecutiveCompensation) = r := by
  rw [h]

/-- Overriding the person identifier with its own value is the identity. -/
theorem dirRecord_override (r : Loader.DirectorCompensation) (v : String)
    (h : v = r.person_id) :
    ({ r with person_id := v } : Loader.DirectorCompensation) = r := by
  rw [h]

/-- The executive row loop: the company identifier is preserved, the
fiscal-year-end follows `execFyeRows`, the executive table receives exactly
the pure record sequence as keyed writes, every other record table is
untouched, and well-formedness survives. -/
theorem execCompRows_spec (year : String) :
    ∀ (rows : List Row) (c : Loader.Company) (st : Loader.LoaderState),
      peopleWF st.league_manager →
      (Loader.execCompRows year c st rows).1.company_id = c.company_id ∧
      (Loader.execCompRows year c st rows).1.fiscal_year_end =
        Loader.execFyeRows c.fiscal_year_end rows ∧
      (Loader.execCompRows year c st rows).2.league_manager.executive_comp =
        Loader.upsertListBy Loader.execKey st.league_manager.executive_comp
          (Loader.execRecords c.company_id year rows) ∧
      (Loader.execCompRows year c st rows).2.league_manager.director_comp =
        st.league_manager.director_comp ∧
      (Loader.execCompRows year c st rows).2.league_manager.equity_grants =
        st.league_manager.equity_grants ∧
      (Loader.execCompRows year c st rows).2.league_manager.beneficial_ownership =
        st.league_manager.beneficial_ownership ∧
      (Loader.execCompRows year c st rows).2.league_manager.director_profiles =
        st.league_manager.director_profiles ∧
      (Loader.execCompRows year c st rows).2.league_manager.companies =
        st.league_manager.companies ∧
      peopleWF (Loader.execCompRows year c st rows).2.league_manager := by
  intro rows
  induction rows with
  | nil =>
    intro c st hwf
    exact ⟨rfl, rfl, rfl, rfl, rfl, rfl, rfl, rfl, hwf⟩
  | cons row rest ih =>
    intro c st hwf
    by_cases hname :
        ((_get_first row ["full_name", "executive_name", "name"] (some "")).getD "") = ""
    · have hnot : Loader.isNamedExec row = false := by
        unfold Loader.isNamedExec
        simpa using hname
      have hskip : Loader.execCompRows year c st (row :: rest) =
          Loader.execCompRows year c st rest := by
        simp only [Loader.execCompRows, if_pos hname]
      have hrec : Loader.execRecords c.company_id year (row :: rest) =
          Loader.execRecords c.company_id year rest := by
        unfold Loader.execRecords
        rw [List.filter_cons, hnot]
        simp
      have hfye : Loader.execFyeRows c.fiscal_year_end (row :: rest) =
          Loader.execFyeRows c.fiscal_year_end rest := by
        unfold Loader.execFyeRows
        rw [List.foldl_cons, hnot]
        simp
      rw [hskip, hrec, hfye]
      exact ih c st hwf
    · have hnamed : Loader.isNamedExec row = true := by
        unfold Loader.isNamedExec
        simpa using hname
      simp only [Loader.execCompRows, if_neg hname]
      set A : Loader.PersonArgs :=
        { person_id := row.get "person_id"
          full_name := (_get_first row ["full_name", "executive_name", "name"] (some "")).getD ""
          current_title := (_get_first row ["current_title", "title", "position"] (some "")).getD ""
          is_executive := true
          bio_short := row.get "bio_short"
          linkedin_url := row.get "linkedin_url"
          photo_url := row.get "photo_url"
          years_experience := _get_int row ["years_experience", "experience_years"] (some 0)
          education := _get_first row ["education", "education_background"] none
          status := _get_first row ["status", "employment_status"] none } with hA
      set pst := Loader._ensure_person st A with hpst
      set crow := Loader.execRowCompanyUpdate row c with hcrow
      set record : Loader.ExecutiveCompensation :=
        { Loader.execRecordOfRow crow.company_id year row with
            person_id := pst.1.person_id } with hrecdef
      set st2 : Loader.LoaderState :=
        { pst.2 with league_manager := pst.2.league_manager.add_executive_comp record }
        with hst2
      have hwf1 : peopleWF pst.2.league_manager := ensure_person_preserves_wf st A hwf
      have hwf2 : peopleWF st2.league_manager := fun e he => hwf1 e he
      obtain ⟨h1, h2, h3, h4, h5, h6, h7⟩ := ensure_person_lm_fields st A
      obtain ⟨hcid, hcfye⟩ := execRowCompanyUpdate_spec row c
      have hpid := ensure_person_id st A hwf
      obtain ⟨g1, g2, g3, g4, g5, g6, g7, g8, g9⟩ := ih crow st2 hwf2
      have hst2exec : st2.league_manager.executive_comp =
          Loader.upsertBy Loader.execKey st.league_manager.executive_comp record := by
        show Loader.upsertBy Loader.execKey pst.2.league_manager.executive_comp record = _
        rw [show pst.2.league_manager.executive_comp = st.league_manager.executive_comp from h1]
      have hcid2 : crow.company_id = c.company_id := by
        rw [hcrow]
        exact hcid
      have hrecord : record = Loader.execRecordOfRow c.company_id year row := by
        rw [hrecdef]
        simp only [hcid2]
        apply execRecord_override
        show pst.1.person_id = _
        rw [hpst, hpid]
        rfl
      refine ⟨by rw [g1, hcid], ?_, ?_, by rw [g4]; exact h2, by rw [g5]; exact h3,
        by rw [g6]; exact h4, by rw [g7]; exact h5, by rw [g8]; exact h7, g9⟩
      · rw [g2]
        unfold Loader.execFyeRows
        rw [List.foldl_cons, hnamed]
        simp only [if_true]
        rw [← hcrow] at hcfye
        rw [hcfye]
      · rw [g3, hst2exec, hrecord]
        have hfilter : Loader.execRecords c.company_id year (row :: rest) =
            Loader.execRecordOfRow c.company_id year row ::
              Loader.execRecords c.company_id year rest := by
          unfold Loader.execRecords
          rw [List.filter_cons, hnamed]
          simp
        rw [hfilter, show crow.company_id = c.company_id from hcid]
        rfl

/-- The director row loop: the director table receives exactly the pure
record sequence as keyed writes, every other record table is untouched, and
well-formedness survives. -/
theorem directorCompRows_spec :
    ∀ (rows : List Row) (c : Loader.Company) (st : Loader.LoaderState),
      peopleWF st.league_manager →
      (Loader.directorCompRows c st rows).league_manager.director_comp =
        Loader.upsertListBy Loader.dirKey st.league_manager.director_comp
          (Loader.dirRecords c.company_id c.fiscal_year_end rows) ∧
      (Loader.directorCompRows c st rows).league_manager.executive_comp =
        st.league_manager.executive_comp ∧
      (Loader.directorCompRows c st rows).league_manager.equity_grants =
        st.league_manager.equity_grants ∧
      (Loader.directorCompRows c st rows).league_manager.beneficial_ownership =
        st.league_manager.beneficial_ownership ∧
      (Loader.directorCompRows c st rows).league_manager.director_profiles =
        st.league_manager.director_profiles ∧
      (Loader.directorCompRows c st rows).league_manager.companies =
        st.league_manager.companies ∧
      peopleWF (Loader.directorCompRows c st rows).league_manager := by
  intro rows
  induction rows with
  | nil =>
    intro c st hwf
    exact ⟨rfl, rfl, rfl, rfl, rfl, rfl, hwf⟩
  | cons row rest ih =>
    intro c st hwf
    by_cases hname :
        ((_get_first row ["full_name", "director_name", "name"] (some "")).getD "") = ""
    · have hnot : Loader.isNamedDir row = false := by
        unfold Loader.isNamedDir
        simpa using hname
      have hskip : Loader.directorCompRows c st (row :: rest) =
          Loader.directorCompRows c st rest := by
        simp only [Loader.directorCompRows, if_pos hname]
      have hrec : Loader.dirRecords c.company_id c.fiscal_year_end (row :: rest) =
          Loader.dirRecords c.company_id c.fiscal_year_end rest := by
        unfold Loader.dirRecords
        rw [List.filter_cons, hnot]
        simp
      rw [hskip, hrec]
      exact ih c st hwf
    · have hnamed : Loader.isNamedDir row = true := by
        unfold Loader.isNamedDir
        simpa using hname
      simp only [Loader.directorCompRows, if_neg hname]
      set A : Loader.PersonArgs :=
        { person_id := row.get "person_id"
          full_name := (_get_first row ["full_name", "director_name", "name"] (some "")).getD ""
          current_title := (_get_first row ["role", "title"] (some "Director")).getD ""
          is_director := true } with hA
      set pst := Loader._ensure_person st A with hpst
      set record : Loader.DirectorCompensation :=
        { Loader.dirRecordOfRow c.company_id c.fiscal_year_end row with
            person_id := pst.1.person_id } with hrecdef
      set st2 : Loader.LoaderState :=
        { pst.2 with league_manager := pst.2.league_manager.add_director_comp record }
        with hst2
      have hwf1 : peopleWF pst.2.league_manager := ensure_person_preserves_wf st A hwf
      have hwf2 : peopleWF st2.league_manager := fun e he => hwf1 e he
      obtain ⟨h1, h2, h3, h4, h5, h6, h7⟩ := ensure_person_lm_fields st A
      have hpid := ensure_person_id st A hwf
      obtain ⟨g1, g2, g3, g4, g5, g6, g7⟩ := ih c st2 hwf2
      have hst2dir : st2.league_manager.director_comp =
          Loader.upsertBy Loader.dirKey st.league_manager.director_comp record := by
        show Loader.upsertBy Loader.dirKey pst.2.league_manager.director_comp record = _
        rw [show pst.2.league_manager.director_comp = st.league_manager.director_comp from h2]
      have hrecord : record = Loader.dirRecordOfRow c.company_id c.fiscal_year_end row := by
        rw [hrecdef]
        apply dirRecord_override
        show pst.1.person_id = _
        rw [hpst, hpid]
        rfl
      refine ⟨?_, by rw [g2]; exact h1, by rw [g3]; exact h3, by rw [g4]; exact h4,
        by rw [g5]; exact h5, by rw [g6]; exact h7, g7⟩
      rw [g1, hst2dir, hrecord]
      have hfilter : Loader.dirRecords c.company_id c.fiscal_year_end (row :: rest) =
          Loader.dirRecordOfRow c.company_id c.fiscal_year_end row ::
            Loader.dirRecords c.company_id c.fiscal_year_end rest := by
        unfold Loader.dirRecords
        rw [List.filter_cons, hnamed]
        simp
      rw [hfilter]
      rfl

/-- The equity-grant row loop: one grant is appended per named row and no
other record table moves. -/
theorem equityGrantRows_spec :
    ∀ (rows : List Row) (c : Loader.Company) (st : Loader.LoaderState),
      peopleWF st.league_manager →
      (Loader.equityGrantRows c st rows).league_manager.equity_grants.length =
        st.league_manager.equity_grants.length + (rows.filter Loader.isNamedExec).length ∧
      (Loader.equityGrantRows c st rows).league_manager.executive_comp =
        st.league_manager.executive_comp ∧
      (Loader.equityGrantRows c st rows).league_manager.director_comp =
        st.league_manager.director_comp ∧
      (Loader.equityGrantRows c st rows).league_manager.beneficial_ownership =
        st.league_manager.beneficial_ownership ∧
      (Loader.equityGrantRows c st rows).league_manager.director_profiles =
        st.league_manager.director_profiles ∧
      (Loader.equityGrantRows c st rows).league_manager.companies =
        st.league_manager.companies ∧
      peopleWF (Loader.equityGrantRows c st rows).league_manager := by
  intro rows
  induction rows with
  | nil =>
    intro c st hwf
    exact ⟨rfl, rfl, rfl, rfl, rfl, rfl, hwf⟩
  | cons row rest ih =>
    intro c st hwf
    by_cases hname :
        ((_get_first row ["full_name", "executive_name", "name"] (some "")).getD "") = ""
    · have hnot : Loader.isNamedExec row = false := by
        unfold Loader.isNamedExec
        simpa using hname
      have hskip : Loader.equityGrantRows c st (row :: rest) =
          Loader.equityGrantRows c st rest := by
        simp only [Loader.equityGrantRows, if_pos hname]
      have hfilter : (List.filter Loader.isNamedExec (row :: rest)).length =
          (List.filter Loader.isNamedExec rest).length := by
        rw [List.filter_cons, hnot]
        simp
      rw [hskip, hfilter]
      exact ih c st hwf
    · have hnamed : Loader.isNamedExec row = true := by
        unfold Loader.isNamedExec
        simpa using hname
      simp only [Loader.equityGrantRows, if_neg hname]
      set A : Loader.PersonArgs :=
        { person_id := row.get "person_id"
          full_name := (_get_first row ["full_name", "executive_name", "name"] (some "")).getD ""
          current_title := (_get_first row ["current_title", "title"] (some "")).getD ""
          is_executive := true } with hA
      set pst := Loader._ensure_person st A with hpst
      set record := Loader.grantRecordOfRow c pst.1.person_id row with hrecdef
      set st2 : Loader.LoaderState :=
        { pst.2 with league_manager := pst.2.league_manager.add_equity_grant record }
        with hst2
      have hwf1 : peopleWF pst.2.league_manager := ensure_person_preserves_wf st A hwf
      have hwf2 : peopleWF st2.league_manager := fun e he => hwf1 e he
      obtain ⟨h1, h2, h3, h4, h5, h6, h7⟩ := ensure_person_lm_fields st A
      obtain ⟨g1, g2, g3, g4, g5, g6, g7⟩ := ih c st2 hwf2
      have hlen : st2.league_manager.equity_grants.length =
          st.league_manager.equity_grants.length + 1 := by
        show (pst.2.league_manager.equity_grants ++ [record]).length = _
        rw [List.length_append,
          show pst.2.league_manager.equity_grants = st.league_manager.equity_grants from h3]
        rfl
      have hfilter : (List.filter Loader.isNamedExec (row :: rest)).length =
          (List.filter Loader.isNamedExec rest).length + 1 := by
        rw [List.filter_cons, hnamed]
        simp
      refine ⟨?_, by rw [g2]; exact h1, by rw [g3]; exact h2, by rw [g4]; exact h4,
        by rw [g5]; exact h5, by rw [g6]; exact h7, g7⟩
      rw [g1, hlen, hfilter]
      omega

/-- The beneficial-ownership row loop: one record is appended per named row
and no other record table moves. -/
theorem ownershipRows_spec :
    ∀ (rows : List Row) (c : Loader.Company) (st : Loader.LoaderState),
      peopleWF st.league_manager →
      (Loader.ownershipRows c st rows).league_manager.beneficial_ownership.length =
        st.league_manager.beneficial_ownership.length +
          (rows.filter Loader.isNamedOwn).length ∧
      (Loader.ownershipRows c st rows).league_manager.executive_comp =
        st.league_manager.executive_comp ∧
      (Loader.ownershipRows c st rows).league_manager.director_comp =
        st.league_manager.director_comp ∧
      (Loader.ownershipRows c st rows).league_manager.equity_grants =
        st.league_manager.equity_grants ∧
      (Loader.ownershipRows c st rows).league_manager.director_profiles =
        st.league_manager.director_profiles ∧
      (Loader.ownershipRows c st rows).league_manager.companies =
        st.league_manager.companies ∧
      peopleWF (Loader.ownershipRows c st rows).league_manager := by
  intro rows
  induction rows with
  | nil =>
    intro c st hwf
    exact ⟨rfl, rfl, rfl, rfl, rfl, rfl, hwf⟩
  | cons row rest ih =>
    intro c st hwf
    by_cases hname : ((_get_first row ["full_name", "name"] (some "")).getD "") = ""
    · have hnot : Loader.isNamedOwn row = false := by
        unfold Loader.isNamedOwn
        simpa using hname
      have hskip : Loader.ownershipRows c st (row :: rest) =
          Loader.ownershipRows c st rest := by
        simp only [Loader.ownershipRows, if_pos hname]
      have hfilter : (List.filter Loader.isNamedOwn (row :: rest)).length =
          (List.filter Loader.isNamedOwn rest).length := by
        rw [List.filter_cons, hnot]
        simp
      rw [hskip, hfilter]
      exact ih c st hwf
    · have hnamed : Loader.isNamedOwn row = true := by
        unfold Loader.isNamedOwn
        simpa using hname
      simp only [Loader.ownershipRows, if_neg hname]
      set A : Loader.PersonArgs :=
        { person_id := row.get "person_id"
          full_name := (_get_first row ["full_name", "name"] (some "")).getD ""
          current_title := (_get_first row ["current_title", "role", "title"] (some "")).getD ""
          is_executive := _to_bool (PyVal.ofOpt (row.get "is_executive"))
          is_director := _to_bool (PyVal.ofOpt (row.get "is_director")) } with hA
      set pst := Loader._ensure_person st A with hpst
      set record := Loader.ownRecordOfRow c pst.1 row with hrecdef
      set st2 : Loader.LoaderState :=
        { pst.2 with league_manager := pst.2.league_manager.add_beneficial_ownership record }
        with hst2
      have hwf1 : peopleWF pst.2.league_manager := ensure_person_preserves_wf st A hwf
      have hwf2 : peopleWF st2.league_manager := fun e he => hwf1 e he
      obtain ⟨h1, h2, h3, h4, h5, h6, h7⟩ := ensure_person_lm_fields st A
      obtain ⟨g1, g2, g3, g4, g5, g6, g7⟩ := ih c st2 hwf2
      have hlen : st2.league_manager.beneficial_ownership.length =
          st.league_manager.beneficial_ownership.length + 1 := by
        show (pst.2.league_manager.beneficial_ownership ++ [record]).length = _
        rw [List.length_append,
          show pst.2.league_manager.beneficial_ownership =
            st.league_manager.beneficial_ownership from h4]
        rfl
      have hfilter : (List.filter Loader.isNamedOwn (row :: rest)).length =
          (List.filter Loader.isNamedOwn rest).length + 1 := by
        rw [List.filter_cons, hnamed]
        simp
      refine ⟨?_, by rw [g2]; exact h1, by rw [g3]; exact h2, by rw [g4]; exact h3,
        by rw [g5]; exact h5, by rw [g6]; exact h7, g7⟩
      rw [g1, hlen, hfilter]
      omega

/-- The director-profile row loop: one profile is appended per named row and
no other record table moves. -/
theorem directorProfileRows_spec :
    ∀ (rows : List Row) (c : Loader.Company) (st : Loader.LoaderState),
      peopleWF st.league_manager →
      (Loader.directorProfileRows c st rows).league_manager.director_profiles.length =
        st.league_manager.director_profiles.length +
          (rows.filter Loader.isNamedDir).length ∧
      (Loader.directorProfileRows c st rows).league_manager.executive_comp =
        st.league_manager.executive_comp ∧
      (Loader.directorProfileRows c st rows).league_manager.director_comp =
        st.league_manager.director_comp ∧
      (Loader.directorProfileRows c st rows).league_manager.equity_grants =
        st.league_manager.equity_grants ∧
      (Loader.directorProfileRows c st rows).league_manager.beneficial_ownership =
        st.league_manager.beneficial_ownership ∧
      (Loader.directorProfileRows c st rows).league_manager.companies =
        st.league_manager.companies ∧
      peopleWF (Loader.directorProfileRows c st rows).league_manager := by
  intro rows
  induction rows with
  | nil =>
    intro c st hwf
    exact ⟨rfl, rfl, rfl, rfl, rfl, rfl, hwf⟩
  | cons row rest ih =>
    intro c st hwf
    by_cases hname :
        ((_get_first row ["full_name", "director_name", "name"] (some "")).getD "") = ""
    · have hnot : Loader.isNamedDir row = false := by
        unfold Loader.isNamedDir
        simpa using hname
      have hskip : Loader.directorProfileRows c st (row :: rest) =
          Loader.directorProfileRows c st rest := by
        simp only [Loader.directorProfileRows, if_pos hname]
      have hfilter : (List.filter Loader.isNamedDir (row :: rest)).length =
          (List.filter Loader.isNamedDir rest).length := by
        rw [List.filter_cons, hnot]
        simp
      rw [hskip, hfilter]
      exact ih c st hwf
    · have hnamed : Loader.isNamedDir row = true := by
        unfold Loader.isNamedDir
        simpa using hname
      simp only [Loader.directorProfileRows, if_neg hname]
      set A : Loader.PersonArgs :=
        { person_id := row.get "person_id"
          full_name := (_get_first row ["full_name", "director_name", "name"] (some "")).getD ""
          current_title := (_get_first row ["role", "title"] (some "Director")).getD ""
          is_director := true } with hA
      set pst := Loader._ensure_person st A with hpst
      set record := Loader.profRecordOfRow c pst.1 row with hrecdef
      set st2 : Loader.LoaderState :=
        { pst.2 with league_manager := pst.2.league_manager.add_director_profile record }
        with hst2
      have hwf1 : peopleWF pst.2.league_manager := ensure_person_preserves_wf st A hwf
      have hwf2 : peopleWF st2.league_manager := fun e he => hwf1 e he
      obtain ⟨h1, h2, h3, h4, h5, h6, h7⟩ := ensure_person_lm_fields st A
      obtain ⟨g1, g2, g3, g4, g5, g6, g7⟩ := ih c st2 hwf2
      have hlen : st2.league_manager.director_profiles.length =
          st.league_manager.director_profiles.length + 1 := by
        show (pst.2.league_manager.director_profiles ++ [record]).length = _
        rw [List.length_append,
          show pst.2.league_manager.director_profiles =
            st.league_manager.director_profiles from h5]
        rfl
      have hfilter : (List.filter Loader.isNamedDir (row :: rest)).length =
          (List.filter Loader.isNamedDir rest).length + 1 := by
        rw [List.filter_cons, hnamed]
        simp
      refine ⟨?_, by rw [g2]; exact h1, by rw [g3]; exact h2, by rw [g4]; exact h3,
        by rw [g5]; exact h4, by rw [g6]; exact h7, g7⟩
      rw [g1, hlen, hfilter]
      omega

/-- The policy row loop touches only the policy table. -/
theorem directorPolicyRows_spec :
    ∀ (rows : List Row) (c : Loader.Company) (st : Loader.LoaderState),
      peopleWF st.league_manager →
      (Loader.directorPolicyRows c st rows).league_manager.executive_comp =
        st.league_manager.executive_comp ∧
      (Loader.directorPolicyRows c st rows).league_manager.director_comp =
        st.league_manager.director_comp ∧
      (Loader.directorPolicyRows c st rows).league_manager.equity_grants =
        st.league_manager.equity_grants ∧
      (Loader.directorPolicyRows c st rows).league_manager.beneficial_ownership =
        st.league_manager.beneficial_ownership ∧
      (Loader.directorPolicyRows c st rows).league_manager.director_profiles =
        st.league_manager.director_profiles ∧
      (Loader.directorPolicyRows c st rows).league_manager.companies =
        st.league_manager.companies ∧
      peopleWF (Loader.directorPolicyRows c st rows).league_manager := by
  intro rows
  induction rows with
  | nil =>
    intro c st hwf
    exact ⟨rfl, rfl, rfl, rfl, rfl, rfl, hwf⟩
  | cons row rest ih =>
    intro c st hwf
    by_cases hc : strTruthy (_get_first row ["component", "policy_item"] (some "")) = true
    · have hstep : Loader.directorPolicyRows c st (row :: rest) =
          Loader.directorPolicyRows c
            { st with league_manager :=
                st.league_manager.add_director_policy (Loader.policyRecordOfRow c row) }
            rest := by
        simp only [Loader.directorPolicyRows, hc, Bool.not_true]
        rw [if_neg]
        simp
      set st2 : Loader.LoaderState :=
        { st with league_manager :=
            st.league_manager.add_director_policy (Loader.policyRecordOfRow c row) }
        with hst2
      rw [hstep]
      have hwf2 : peopleWF st2.league_manager := fun e he => hwf e he
      obtain ⟨g1, g2, g3, g4, g5, g6, g7⟩ := ih c st2 hwf2
      exact ⟨g1, g2, g3, g4, g5, g6, g7⟩
    · simp only [Bool.not_eq_true] at hc
      have hskip : Loader.directorPolicyRows c st (row :: rest) =
          Loader.directorPolicyRows c st rest := by
        simp only [Loader.directorPolicyRows, hc, Bool.not_false]
        rw [if_pos trivial]
      rw [hskip]
      exact ih c st hwf

/-- One classification-loop step: the company keeps its identifier, its
fiscal-year-end follows `blobFye`, the two compensation tables receive the
blob's keyed writes, the three append-only tables grow by the blob's counts,
the company table is untouched, and well-formedness survives. -/
theorem processBlob_spec (store : Loader.BlobStore) (year b : String)
    (c : Loader.Company) (st : Loader.LoaderState) (n : Nat)
    (hwf : peopleWF st.league_manager) :
    (Loader.processBlob store year (c, st, n) b).1.company_id = c.company_id ∧
    (Loader.processBlob store year (c, st, n) b).1.fiscal_year_end =
      Loader.blobFye store c.fiscal_year_end b ∧
    (Loader.processBlob store year (c, st, n) b).2.1.league_manager.executive_comp =
      Loader.upsertListBy Loader.execKey st.league_manager.executive_comp
        (Loader.blobExecRecords store c.company_id year b) ∧
    (Loader.processBlob store year (c, st, n) b).2.1.league_manager.director_comp =
      Loader.upsertListBy Loader.dirKey st.league_manager.director_comp
        (Loader.blobDirRecords store c.company_id c.fiscal_year_end b) ∧
    (Loader.processBlob store year (c, st, n) b).2.1.league_manager.equity_grants.length =
      st.league_manager.equity_grants.length + Loader.blobGrantCount store b ∧
    (Loader.processBlob store year (c, st, n) b).2.1.league_manager.beneficial_ownership.length =
      st.league_manager.beneficial_ownership.length + Loader.blobOwnCount store b ∧
    (Loader.processBlob store year (c, st, n) b).2.1.league_manager.director_profiles.length =
      st.league_manager.director_profiles.length + Loader.blobProfCount store b ∧
    (Loader.processBlob store year (c, st, n) b).2.1.league_manager.companies =
      st.league_manager.companies ∧
    peopleWF (Loader.processBlob store year (c, st, n) b).2.1.league_manager := by
  obtain ⟨hrows, hlm⟩ := read_csv_blob_spec store st b
  have hwfr : peopleWF (Loader._read_csv_blob store st b).2.league_manager := by
    rw [hlm]
    exact hwf
  cases hcat : classify_filename (blobFilename b) with
  | manifest =>
    simp only [Loader.processBlob, hcat, Loader.blobFye, Loader.blobExecRecords,
      Loader.blobDirRecords, Loader.blobGrantCount, Loader.blobOwnCount, Loader.blobProfCount]
    refine ⟨?_, ?_, ?_, ?_, ?_, ?_, ?_, ?_, ?_⟩ <;> first | exact hwf | rfl | trivial
  | notCsv =>
    simp only [Loader.processBlob, hcat, Loader.blobFye, Loader.blobExecRecords,
      Loader.blobDirRecords, Loader.blobGrantCount, Loader.blobOwnCount, Loader.blobProfCount]
    refine ⟨?_, ?_, ?_, ?_, ?_, ?_, ?_, ?_, ?_⟩ <;> first | exact hwf | rfl | trivial
  | unrecognized =>
    simp only [Loader.processBlob, hcat, Loader.blobFye, Loader.blobExecRecords,
      Loader.blobDirRecords, Loader.blobGrantCount, Loader.blobOwnCount, Loader.blobProfCount]
    refine ⟨?_, ?_, ?_, ?_, ?_, ?_, ?_, ?_, ?_⟩ <;> first | exact hwf | rfl | trivial
  | execComp =>
    simp only [Loader.processBlob, hcat, Loader._import_executive_compensation, hrows]
    obtain ⟨g1, g2, g3, g4, g5, g6, g7, g8, g9⟩ :=
      execCompRows_spec year (Loader.blobRows store b) c
        (Loader._read_csv_blob store st b).2 hwfr
    rw [hlm] at g3 g4 g5 g6 g7 g8
    simp only [Loader.blobFye, Loader.blobExecRecords, Loader.blobDirRecords,
      Loader.blobGrantCount, Loader.blobOwnCount, Loader.blobProfCount, hcat]
    refine ⟨?_, ?_, ?_, ?_, ?_, ?_, ?_, ?_, ?_⟩ <;>
      first
        | trivial
        | exact g1
        | exact g2
        | exact g3
        | exact g8
        | exact g9
        | (rw [g4]; rfl)
        | (rw [g5]; rfl)
        | (rw [g6]; rfl)
        | (rw [g7]; rfl)
  | equityGrants =>
    simp only [Loader.processBlob, hcat, Loader._import_equity_grants, hrows]
    obtain ⟨g1, g2, g3, g4, g5, g6, g7⟩ :=
      equityGrantRows_spec (Loader.blobRows store b) c
        (Loader._read_csv_blob store st b).2 hwfr
    rw [hlm] at g1 g2 g3 g4 g5 g6
    simp only [Loader.blobFye, Loader.blobExecRecords, Loader.blobDirRecords,
      Loader.blobGrantCount, Loader.blobOwnCount, Loader.blobProfCount, hcat]
    refine ⟨?_, ?_, ?_, ?_, ?_, ?_, ?_, ?_, ?_⟩ <;>
      first
        | trivial
        | exact g1
        | exact g6
        | exact g7
        | (rw [g1]; rfl)
        | (rw [g2]; rfl)
        | (rw [g3]; rfl)
        | (rw [g4]; rfl)
        | (rw [g5]; rfl)
  | ownership =>
    simp only [Loader.processBlob, hcat, Loader._import_beneficial_ownership, hrows]
    obtain ⟨g1, g2, g3, g4, g5, g6, g7⟩ :=
      ownershipRows_spec (Loader.blobRows store b) c
        (Loader._read_csv_blob store st b).2 hwfr
    rw [hlm] at g1 g2 g3 g4 g5 g6
    simp only [Loader.blobFye, Loader.blobExecRecords, Loader.blobDirRecords,
      Loader.blobGrantCount, Loader.blobOwnCount, Loader.blobProfCount, hcat]
    refine ⟨?_, ?_, ?_, ?_, ?_, ?_, ?_, ?_, ?_⟩ <;>
      first
        | trivial
        | exact g1
        | exact g6
        | exact g7
        | (rw [g1]; rfl)
        | (rw [g2]; rfl)
        | (rw [g3]; rfl)
        | (rw [g4]; rfl)
        | (rw [g5]; rfl)
  | directorComp =>
    simp only [Loader.processBlob, hcat, Loader._import_director_compensation, hrows]
    obtain ⟨g1, g2, g3, g4, g5, g6, g7⟩ :=
      directorCompRows_spec (Loader.blobRows store b) c
        (Loader._read_csv_blob store st b).2 hwfr
    rw [hlm] at g1 g2 g3 g4 g5 g6
    simp only [Loader.blobFye, Loader.blobExecRecords, Loader.blobDirRecords,
      Loader.blobGrantCount, Loader.blobOwnCount, Loader.blobProfCount, hcat]
    refine ⟨?_, ?_, ?_, ?_, ?_, ?_, ?_, ?_, ?_⟩ <;>
      first
        | trivial
        | exact g1
        | exact g6
        | exact g7
        | (rw [g1]; rfl)
        | (rw [g2]; rfl)
        | (rw [g3]; rfl)
        | (rw [g4]; rfl)
        | (rw [g5]; rfl)
  | directorPolicy =>
    simp only [Loader.processBlob, hcat, Loader._import_director_policy_file, hrows]
    obtain ⟨g1, g2, g3, g4, g5, g6, g7⟩ :=
      directorPolicyRows_spec (Loader.blobRows store b) c
        (Loader._read_csv_blob store st b).2 hwfr
    rw [hlm] at g1 g2 g3 g4 g5 g6
    simp only [Loader.blobFye, Loader.blobExecRecords, Loader.blobDirRecords,
      Loader.blobGrantCount, Loader.blobOwnCount, Loader.blobProfCount, hcat]
    refine ⟨?_, ?_, ?_, ?_, ?_, ?_, ?_, ?_, ?_⟩ <;>
      first
        | trivial
        | exact g1
        | exact g6
        | exact g7
        | (rw [g1]; rfl)
        | (rw [g2]; rfl)
        | (rw [g3]; rfl)
        | (rw [g4]; rfl)
        | (rw [g5]; rfl)
  | directorProfiles =>
    simp only [Loader.processBlob, hcat, Loader._import_director_profiles, hrows]
    obtain ⟨g1, g2, g3, g4, g5, g6, g7⟩ :=
      directorProfileRows_spec (Loader.blobRows store b) c
        (Loader._read_csv_blob store st b).2 hwfr
    rw [hlm] at g1 g2 g3 g4 g5 g6
    simp only [Loader.blobFye, Loader.blobExecRecords, Loader.blobDirRecords,
      Loader.blobGrantCount, Loader.blobOwnCount, Loader.blobProfCount, hcat]
    refine ⟨?_, ?_, ?_, ?_, ?_, ?_, ?_, ?_, ?_⟩ <;>
      first
        | trivial
        | exact g1
        | exact g6
        | exact g7
        | (rw [g1]; rfl)
        | (rw [g2]; rfl)
        | (rw [g3]; rfl)
        | (rw [g4]; rfl)
        | (rw [g5]; rfl)

/-- Keyed writes compose: folding a concatenation is folding in two stages. -/
theorem upsertListBy_append {α κ : Type} [DecidableEq κ] (key : α → κ)
    (xs L1 L2 : List α) :
    Loader.upsertListBy key xs (L1 ++ L2) =
      Loader.upsertListBy key (Loader.upsertListBy key xs L1) L2 := by
  unfold Loader.upsertListBy
  rw [List.foldl_append]

/-- The classification loop over a whole blob listing: compensation tables
receive the concatenated keyed writes, append-only tables grow by the summed
counts, the fiscal-year-end follows `foldFye`, and the company identifier,
company table and well-formedness are preserved. -/
theorem processBlobs_fold_spec (store : Loader.BlobStore) (year : String) :
    ∀ (bs : List String) (c : Loader.Company) (st : Loader.LoaderState) (n : Nat),
      peopleWF st.league_manager →
      (bs.foldl (Loader.processBlob store year) (c, st, n)).1.company_id = c.company_id ∧
      (bs.foldl (Loader.processBlob store year) (c, st, n)).1.fiscal_year_end =
        Loader.foldFye store c.fiscal_year_end bs ∧
      (bs.foldl (Loader.processBlob store year) (c, st, n)).2.1.league_manager.executive_comp =
        Loader.upsertListBy Loader.execKey st.league_manager.executive_comp
          (Loader.foldExecRecords store c.company_id year bs) ∧
      (bs.foldl (Loader.processBlob store year) (c, st, n)).2.1.league_manager.director_comp =
        Loader.upsertListBy Loader.dirKey st.league_manager.director_comp
          (Loader.foldDirRecords store c.company_id c.fiscal_year_end bs) ∧
      (bs.foldl (Loader.processBlob store year)
          (c, st, n)).2.1.league_manager.equity_grants.length =
        st.league_manager.equity_grants.length + Loader.foldGrantCount store bs ∧
      (bs.foldl (Loader.processBlob store year)
          (c, st, n)).2.1.league_manager.beneficial_ownership.length =
        st.league_manager.beneficial_ownership.length + Loader.foldOwnCount store bs ∧
      (bs.foldl (Loader.processBlob store year)
          (c, st, n)).2.1.league_manager.director_profiles.length =
        st.league_manager.director_profiles.length + Loader.foldProfCount store bs ∧
      (bs.foldl (Loader.processBlob store year) (c, st, n)).2.1.league_manager.companies =
        st.league_manager.companies ∧
      peopleWF (bs.foldl (Loader.processBlob store year) (c, st, n)).2.1.league_manager := by
  intro bs
  induction bs with
  | nil =>
    intro c st n hwf
    exact ⟨rfl, rfl, rfl, rfl, rfl, rfl, rfl, rfl, hwf⟩
  | cons b bs ih =>
    intro c st n hwf
    obtain ⟨p1, p2, p3, p4, p5, p6, p7, p8, p9⟩ := processBlob_spec store year b c st n hwf
    obtain ⟨g1, g2, g3, g4, g5, g6, g7, g8, g9⟩ :=
      ih (Loader.processBlob store year (c, st, n) b).1
        (Loader.processBlob store year (c, st, n) b).2.1
        (Loader.processBlob store year (c, st, n) b).2.2 p9
    have hX : Loader.processBlob store year (c, st, n) b =
        ((Loader.processBlob store year (c, st, n) b).1,
         (Loader.processBlob store year (c, st, n) b).2.1,
         (Loader.processBlob store year (c, st, n) b).2.2) := rfl
    rw [List.foldl_cons, hX]
    refine ⟨g1.trans p1, ?_, ?_, ?_, ?_, ?_, ?_, g8.trans p8, g9⟩
    · rw [g2, p2]
      rfl
    · rw [g3, p3, p1,
        show Loader.foldExecRecords store c.company_id year (b :: bs) =
          Loader.blobExecRecords store c.company_id year b ++
            Loader.foldExecRecords store c.company_id year bs from rfl,
        upsertListBy_append]
    · rw [g4, p4, p1, p2,
        show Loader.foldDirRecords store c.company_id c.fiscal_year_end (b :: bs) =
          Loader.blobDirRecords store c.company_id c.fiscal_year_end b ++
            Loader.foldDirRecords store c.company_id
              (Loader.blobFye store c.fiscal_year_end b) bs from rfl,
        upsertListBy_append]
    · rw [g5, p5,
        show Loader.foldGrantCount store (b :: bs) =
          Loader.blobGrantCount store b + Loader.foldGrantCount store bs from rfl]
      omega
    · rw [g6, p6,
        show Loader.foldOwnCount store (b :: bs) =
          Loader.blobOwnCount store b + Loader.foldOwnCount store bs from rfl]
      omega
    · rw [g7, p7,
        show Loader.foldProfCount store (b :: bs) =
          Loader.blobProfCount store b + Loader.foldProfCount store bs from rfl]
      omega

/-- A conditional warning never touches the repository. -/
theorem ite_warn_lm (P : Prop) [Decidable P] (st : Loader.LoaderState) (m : String) :
    (if P then Loader.warn st m else st).league_manager = st.league_manager := by
  split <;> rfl

/-- `loadYearCore` on a well-formed state: both compensation tables receive
the blob listing's keyed writes (the director writes at the
manifest-determined fiscal-year-end), the append-only tables grow by the
listing's counts, and both key invariants survive. -/
theorem loadYearCore_spec (store : Loader.BlobStore) (slug year : String)
    (ns : List String) (mrow : Row) (stm : Loader.LoaderState)
    (hwf : peopleWF stm.league_manager) (hcwf : companiesWF stm.league_manager) :
    (Loader.loadYearCore store slug year ns (mrow, stm)).league_manager.executive_comp =
      Loader.upsertListBy Loader.execKey stm.league_manager.executive_comp
        (Loader.foldExecRecords store slug year ns) ∧
    (Loader.loadYearCore store slug year ns (mrow, stm)).league_manager.director_comp =
      Loader.upsertListBy Loader.dirKey stm.league_manager.director_comp
        (Loader.foldDirRecords store slug (Loader.ensuredFye mrow year) ns) ∧
    (Loader.loadYearCore store slug year ns
        (mrow, stm)).league_manager.equity_grants.length =
      stm.league_manager.equity_grants.length + Loader.foldGrantCount store ns ∧
    (Loader.loadYearCore store slug year ns
        (mrow, stm)).league_manager.beneficial_ownership.length =
      stm.league_manager.beneficial_ownership.length + Loader.foldOwnCount store ns ∧
    (Loader.loadYearCore store slug year ns
        (mrow, stm)).league_manager.director_profiles.length =
      stm.league_manager.director_profiles.length + Loader.foldProfCount store ns ∧
    peopleWF (Loader.loadYearCore store slug year ns (mrow, stm)).league_manager ∧
    companiesWF (Loader.loadYearCore store slug year ns (mrow, stm)).league_manager := by
  simp only [Loader.loadYearCore]
  set st2 := (if mrow.entries.isEmpty then
      Loader.warn stm s!"Manifest not found for {slug} {year}; using defaults"
    else stm) with hst2d
  have hst2lm : st2.league_manager = stm.league_manager := by
    rw [hst2d]
    split <;> rfl
  have hwf2 : peopleWF st2.league_manager := by
    rw [hst2lm]
    exact hwf
  have hcwf2 : companiesWF st2.league_manager := by
    rw [hst2lm]
    exact hcwf
  obtain ⟨e1, e2, e3, e4, e5, e6, e7, e8⟩ := ensure_company_spec st2 slug year mrow hcwf2
  have hwfcs : peopleWF (Loader._ensure_company st2 slug mrow year).2.league_manager :=
    fun p hp => hwf2 p (e8 ▸ hp)
  have hcwfcs : companiesWF (Loader._ensure_company st2 slug mrow year).2.league_manager :=
    ensure_company_preserves_wf st2 slug year mrow hcwf2
  obtain ⟨f1, f2, f3, f4, f5, f6, f7, f8, f9⟩ :=
    processBlobs_fold_spec store year ns (Loader._ensure_company st2 slug mrow year).1
      (Loader._ensure_company st2 slug mrow year).2 0 hwfcs
  simp only [ite_warn_lm, Loader.LeagueManager.add_company]
  refine ⟨?_, ?_, ?_, ?_, ?_, ?_, ?_⟩
  · show (ns.foldl (Loader.processBlob store year)
      ((Loader._ensure_company st2 slug mrow year).1,
       (Loader._ensure_company st2 slug mrow year).2,
       0)).2.1.league_manager.executive_comp = _
    rw [f3, e3, hst2lm, e1]
  · show (ns.foldl (Loader.processBlob store year)
      ((Loader._ensure_company st2 slug mrow year).1,
       (Loader._ensure_company st2 slug mrow year).2,
       0)).2.1.league_manager.director_comp = _
    rw [f4, e4, hst2lm, e1, e2]
  · show (ns.foldl (Loader.processBlob store year)
      ((Loader._ensure_company st2 slug mrow year).1,
       (Loader._ensure_company st2 slug mrow year).2,
       0)).2.1.league_manager.equity_grants.length = _
    rw [f5, e5, hst2lm]
  · show (ns.foldl (Loader.processBlob store year)
      ((Loader._ensure_company st2 slug mrow year).1,
       (Loader._ensure_company st2 slug mrow year).2,
       0)).2.1.league_manager.beneficial_ownership.length = _
    rw [f6, e6, hst2lm]
  · show (ns.foldl (Loader.processBlob store year)
      ((Loader._ensure_company st2 slug mrow year).1,
       (Loader._ensure_company st2 slug mrow year).2,
       0)).2.1.league_manager.director_profiles.length = _
    rw [f7, e7, hst2lm]
  · exact fun p hp => f9 p hp
  · intro e he
    rcases mem_upsert he with h | h
    · rw [h]
    · exact hcwfcs e (f8 ▸ h)

/-- `load_company_year`, given a successful nonempty listing: it succeeds,
the compensation tables receive the listing's keyed writes (directors at the
fiscal-year-end the manifest determines), the append-only tables grow by the
listing's counts, and both key invariants survive. -/
theorem load_company_year_spec (store : Loader.BlobStore) (st : Loader.LoaderState)
    (slug year : String) (ns : List String)
    (hwf : peopleWF st.league_manager) (hcwf : companiesWF st.league_manager)
    (hls : store.list_blobs s!"companies/{slug}/{year}/" = Except.ok ns)
    (hne : ns.isEmpty = false) :
    ∃ st', Loader.load_company_year store st slug year = Except.ok st' ∧
      st'.league_manager.executive_comp =
        Loader.upsertListBy Loader.execKey st.league_manager.executive_comp
          (Loader.foldExecRecords store slug year ns) ∧
      st'.league_manager.director_comp =
        Loader.upsertListBy Loader.dirKey st.league_manager.director_comp
          (Loader.foldDirRecords store slug
            (Loader.ensuredFye (Loader.manifestOf store ns) year) ns) ∧
      st'.league_manager.equity_grants.length =
        st.league_manager.equity_grants.length + Loader.foldGrantCount store ns ∧
      st'.league_manager.beneficial_ownership.length =
        st.league_manager.beneficial_ownership.length + Loader.foldOwnCount store ns ∧
      st'.league_manager.director_profiles.length =
        st.league_manager.director_profiles.length + Loader.foldProfCount store ns ∧
      peopleWF st'.league_manager ∧ companiesWF st'.league_manager := by
  cases hfind : ns.find? (fun b => strEndsWith (blobFilename b) "_manifest.csv") with
  | none =>
    have hrun : Loader.load_company_year store st slug year =
        Except.ok (Loader.loadYearCore store slug year ns (⟨[]⟩, st)) := by
      simp only [Loader.load_company_year, hls, hne, Bool.false_eq_true, if_false, hfind]
    have hmro : Loader.manifestOf store ns = ⟨[]⟩ := by
      unfold Loader.manifestOf
      rw [hfind]
    obtain ⟨g1, g2, g3, g4, g5, g6, g7⟩ :=
      loadYearCore_spec store slug year ns ⟨[]⟩ st hwf hcwf
    exact ⟨_, hrun, g1, by rw [hmro]; exact g2, g3, g4, g5, g6, g7⟩
  | some b =>
    have hrun : Loader.load_company_year store st slug year =
        Except.ok (Loader.loadYearCore store slug year ns
          (Loader._import_manifest store st slug year b)) := by
      simp only [Loader.load_company_year, hls, hne, Bool.false_eq_true, if_false, hfind]
    obtain ⟨m1, m2, m3, m4, m5, m6, m7, m8⟩ := import_manifest_spec store st slug year b
    have hmro : Loader.manifestOf store ns =
        (Loader._import_manifest store st slug year b).1 := by
      unfold Loader.manifestOf
      rw [hfind, m1]
    have hwfM : peopleWF (Loader._import_manifest store st slug year b).2.league_manager :=
      fun p hp => hwf p (m7 ▸ hp)
    have hcwfM : companiesWF (Loader._import_manifest store st slug year b).2.league_manager :=
      fun e he => hcwf e (m8 ▸ he)
    obtain ⟨g1, g2, g3, g4, g5, g6, g7⟩ :=
      loadYearCore_spec store slug year ns (Loader._import_manifest store st slug year b).1
        (Loader._import_manifest store st slug year b).2 hwfM hcwfM
    have hMS : Loader._import_manifest store st slug year b =
        ((Loader._import_manifest store st slug year b).1,
         (Loader._import_manifest store st slug year b).2) := rfl
    rw [hMS] at hrun
    refine ⟨_, hrun, ?_, ?_, ?_, ?_, ?_, g6, g7⟩
    · rw [g1, m2]
    · rw [g2, m3, hmro]
    · rw [g3, m4]
    · rw [g4, m5]
    · rw [g5, m6]

/-- A one-blob store under `companies/acme/2024/` for exercising a
repeated import pass. -/
def c2Store : Loader.BlobStore :=
  { list_blobs := fun pfx =>
      if pfx = "companies/acme/2024/" then
        Except.ok ["companies/acme/2024/acme_executive_compensation.csv"]
      else Except.ok []
    read_rows := fun _ =>
      Except.ok [⟨[("full_name", some "Jane Roe"), ("salary_usd", some "100")]⟩] }

/-- C2: compensation submissions are keyed upserts on the (company, person,
fiscal-year-end) triple, so importing the same (company, year) dataset twice
leaves the executive and director compensation tables identical to the first
pass (hence identical counts and aggregate totals), while the
beneficial-ownership, equity-grant and director-profile record counts
double under append semantics. -/
theorem double_import (store : Loader.BlobStore) (slug year : String) (ns : List String)
    (hls : store.list_blobs s!"companies/{slug}/{year}/" = Except.ok ns)
    (hne : ns.isEmpty = false) :
    ∃ st1 st2,
      Loader.load_company_year store {} slug year = Except.ok st1 ∧
      Loader.load_company_year store st1 slug year = Except.ok st2 ∧
      st2.league_manager.executive_comp = st1.league_manager.executive_comp ∧
      st2.league_manager.director_comp = st1.league_manager.director_comp ∧
      st2.league_manager.equity_grants.length =
        2 * st1.league_manager.equity_grants.length ∧
      st2.league_manager.beneficial_ownership.length =
        2 * st1.league_manager.beneficial_ownership.length ∧
      st2.league_manager.director_profiles.length =
        2 * st1.league_manager.director_profiles.length := by
  have hwf0 : peopleWF ({} : Loader.LoaderState).league_manager :=
    fun p hp => absurd hp (List.not_mem_nil p)
  have hcwf0 : companiesWF ({} : Loader.LoaderState).league_manager :=
    fun e he => absurd he (List.not_mem_nil e)
  obtain ⟨st1, hrun1, a1, a2, a3, a4, a5, a6, a7⟩ :=
    load_company_year_spec store {} slug year ns hwf0 hcwf0 hls hne
  obtain ⟨st2, hrun2, b1, b2, b3, b4, b5, b6, b7⟩ :=
    load_company_year_spec store st1 slug year ns a6 a7 hls hne
  refine ⟨st1, st2, hrun1, hrun2, ?_, ?_, ?_, ?_, ?_⟩
  · rw [b1, a1]
    exact upsertList_idem Loader.execKey _ _
  · rw [b2, a2]
    exact upsertList_idem Loader.dirKey _ _
  · have h0 : ({} : Loader.LoaderState).league_manager.equity_grants.length = 0 := rfl
    rw [b3, a3, h0]
    omega
  · have h0 : ({} : Loader.LoaderState).league_manager.beneficial_ownership.length = 0 := rfl
    rw [b4, a4, h0]
    omega
  · have h0 : ({} : Loader.LoaderState).league_manager.director_profiles.length = 0 := rfl
    rw [b5, a5, h0]
    omega

/-- Witness: the double-import theorem applied to the concrete one-blob
store. -/
theorem double_import_witness :
    ∃ st1 st2,
      Loader.load_company_year c2Store {} "acme" "2024" = Except.ok st1 ∧
      Loader.load_company_year c2Store st1 "acme" "2024" = Except.ok st2 ∧
      st2.league_manager.executive_comp = st1.league_manager.executive_comp ∧
      st2.league_manager.director_comp = st1.league_manager.director_comp ∧
      st2.league_manager.equity_grants.length =
        2 * st1.league_manager.equity_grants.length ∧
      st2.league_manager.beneficial_ownership.length =
        2 * st1.league_manager.beneficial_ownership.length ∧
      st2.league_manager.director_profiles.length =
        2 * st1.league_manager.director_profiles.length :=
  double_import c2Store "acme" "2024"
    ["companies/acme/2024/acme_executive_compensation.csv"] (by rfl) (by rfl)
